import Mathlib

/-!
# The report core of `report.cc`

A shallow embedding of src/report.cc: the resolver (`report_t::lookup_option`
and `report_t::lookup`), the reports (`xacts_report`, `entry_report`,
`commodities_report`, `sum_all_accounts`, `accounts_report`), the reporter
adapter and the built-in functions `fn_quoted` and `fn_join`, together with
the properties the specification states of them.

Names are the character sequences of NUL-terminated C strings; the
terminator is not part of the value. Every literal of the source is ASCII, so
a `char` of the source is a `Char` here.

The header that declares `is_eq`, the option macros (`OPT`, `OPT_`, `OPT_ALT`,
`OPT_CH`) and the marker macros (`WANT_CMD`, `CMD_PREFIX_LEN`, …) is not part
of src/. The comparison and the option macros are modelled on section 4.4 of
the specification; the marker literals, which the specification does not
give, are a parameter of the resolver.
-/

namespace ledger

/-! ## Option cells and the option macros -/

/-- The backing cell of an option: `HANDLER(name)` denotes the member
`name ## _handler` of `report_t`, so a cell is identified by that member's
name. -/
structure handler_ref where
  name : String
  deriving DecidableEq

/-- The cell `HANDLER(name)`. -/
def HANDLER (name : String) : handler_ref := ⟨name⟩

/-- Modelled from the spec: `is_eq` is declared in option.h, which is not part
of src/. Section 4.4 of the specification describes the comparison of a name
against a table entry as an exact match (no partial or prefix match), so
`is_eq p n` holds exactly when the two strings are equal. -/
def is_eq (p n : String) : Bool := decide (p = n)

/-- One line of a `case` of `lookup_option`: an invocation of one of the four
option macros with the identifiers it is given. -/
inductive opt_entry where
  | OPT (name : String)
  | OPT_ (name : String)
  | OPT_ALT (name alt : String)
  | OPT_CH (name : String)
  deriving DecidableEq

/-- Whether `p` is a one-character name, the test `! *(p + 1)` on a name whose
first character has already selected the `case`. -/
def single_char (p : String) : Bool :=
  match p.data with
  | [_] => true
  | _ => false

/-- Modelled from the spec: the macros `OPT`, `OPT_`, `OPT_ALT` and `OPT_CH`
are declared in option.h, which is not part of src/. Following section 4.4
(exact match against long names and their declared aliases, exact match
against single-character flags): `OPT(name)` accepts the name itself,
`OPT_ALT(name, alt)` the name or its alias, `OPT_CH(name)` the one-character
name of the enclosing `case`, and `OPT_(name)` that one-character name or the
long name. -/
def opt_entry.accepts (p : String) : opt_entry → Bool
  | .OPT name => is_eq p name
  | .OPT_ name => single_char p || is_eq p name
  | .OPT_ALT name alt => is_eq p name || is_eq p alt
  | .OPT_CH _ => single_char p

/-- The cell a macro invocation returns when it accepts the name:
`&HANDLER(name)` for its first argument. -/
def opt_entry.cell : opt_entry → handler_ref
  | .OPT name => HANDLER name
  | .OPT_ name => HANDLER name
  | .OPT_ALT name _ => HANDLER name
  | .OPT_CH name => HANDLER name

/-- The `if … else if …` chain of one `case`: the first macro that accepts
the name returns its cell; when none does, control reaches `break`. -/
def first_match (p : String) : List opt_entry → Option handler_ref
  | [] => none
  | e :: es => if e.accepts p then some e.cell else first_match p es

open opt_entry in
/-- The `switch (*p)` of `report_t::lookup_option`, one pair per `case` label
in source order, each with its chain of macro invocations in source order. -/
def option_table : List (Char × List opt_entry) :=
  [ ('%', [OPT_CH "percentage"]),
    ('A', [OPT_CH "average"]),
    ('B', [OPT_CH "basis"]),
    ('C', [OPT_CH "cleared"]),
    ('D', [OPT_CH "deviation"]),
    ('E', [OPT_CH "empty"]),
    ('F', [OPT_CH "format_"]),
    ('G', [OPT_CH "gain"]),
    ('I', [OPT_CH "price"]),
    ('J', [OPT_CH "total_data"]),
    ('L', [OPT_CH "actual"]),
    ('M', [OPT_CH "monthly"]),
    ('O', [OPT_CH "quantity"]),
    ('P', [OPT_CH "by_payee"]),
    ('R', [OPT_CH "real"]),
    ('S', [OPT_CH "sort_"]),
    ('T', [OPT_CH "total_"]),
    ('U', [OPT_CH "uncleared"]),
    ('V', [OPT_CH "market"]),
    ('W', [OPT_CH "weekly"]),
    ('Y', [OPT_CH "yearly"]),
    ('Z', [OPT_CH "price_exp_"]),
    ('a', [OPT "abbrev_len_", OPT "account_", OPT "actual", OPT "add_budget",
           OPT "amount_", OPT "amount_data", OPT "anon", OPT "ansi",
           OPT "ansi_invert", OPT "average", OPT "account_width_",
           OPT "amount_width_"]),
    ('b', [OPT "balance_format_", OPT "base", OPT_ALT "basis" "cost",
           OPT_ "begin_", OPT "budget", OPT "by_payee"]),
    ('c', [OPT "cache_", OPT "csv_format_", OPT "cleared", OPT "code_as_payee",
           OPT_ALT "comm_as_payee" "commodity_as_payee", OPT "code_as_account",
           OPT_ALT "comm_as_account" "commodity_as_account", OPT "collapse",
           OPT "collapse_if_zero", OPT "columns_", OPT_ "current"]),
    ('d', [OPT "daily", OPT "date_format_", OPT "deviation", OPT_ "display_",
           OPT "display_amount_", OPT "display_total_", OPT "dow",
           OPT "date_width_"]),
    ('e', [OPT "effective", OPT "empty", OPT_ "end_", OPT "equity"]),
    ('f', [OPT "flat", OPT "forecast_", OPT "format_", OPT_ALT "head_" "first_"]),
    ('g', [OPT_CH "performance", OPT "gain"]),
    ('h', [OPT "head_"]),
    ('i', [OPT "invert"]),
    ('j', [OPT_CH "amount_data"]),
    ('l', [OPT_ "limit_", OPT "lot_dates", OPT "lot_prices", OPT "lot_tags",
           OPT "lots", OPT_ALT "tail_" "last_"]),
    ('m', [OPT "market", OPT "monthly"]),
    ('n', [OPT_CH "collapse", OPT "no_total"]),
    ('o', [OPT "only_", OPT_ "output_"]),
    ('p', [OPT "pager_", OPT "payee_as_account", OPT "pending", OPT "percentage",
           OPT "performance", OPT_ "period_", OPT "period_sort_",
           OPT "plot_amount_format_", OPT "plot_total_format_", OPT "price",
           OPT "price_exp_", OPT "prices_format_", OPT "pricesdb_format_",
           OPT "print_format_", OPT "payee_width_"]),
    ('q', [OPT "quantity", OPT "quarterly"]),
    ('r', [OPT "real", OPT "register_format_", OPT_ "related", OPT "related_all",
           OPT "revalued", OPT "revalued_only"]),
    ('s', [OPT "set_account_", OPT "set_payee_", OPT "set_price_", OPT "sort_",
           OPT "sort_all_", OPT "sort_entries_", OPT_ "subtotal"]),
    ('t', [OPT_CH "amount_", OPT "tail_", OPT "total_", OPT "total_data",
           OPT "totals", OPT "truncate_", OPT "total_width_"]),
    ('u', [OPT "unbudgeted", OPT "uncleared"]),
    ('w', [OPT "weekly", OPT_ "wide"]),
    ('x', [OPT_CH "comm_as_payee"]),
    ('y', [OPT_CH "date_format_", OPT "yearly"]) ]

/-- The chain of the `case` whose label is `c`, if the `switch` has one. -/
def find_case (c : Char) : List (Char × List opt_entry) → Option (List opt_entry)
  | [] => none
  | (l, es) :: rest => if c = l then some es else find_case c rest

/-- The function `report_t::lookup_option`: `switch (*p)` selects a `case` by
the first character, the chain of that `case` is tried in order, and every
path that does not return a cell ends in `return NULL`. -/
def lookup_option (p : String) : Option handler_ref :=
  match p.data with
  | [] => none
  | c :: _ =>
    match find_case c option_table with
    | none => none
    | some es => first_match p es

/-- The names under which `chain` registers cells when it stands in the `case`
labelled `c`: the one-character name for `OPT_CH` and `OPT_`, the long name
for `OPT`, `OPT_` and `OPT_ALT`, and the alias for `OPT_ALT`. -/
def opt_entry.keys (c : Char) : opt_entry → List (String × handler_ref)
  | .OPT name => [(name, HANDLER name)]
  | .OPT_ name => [(String.mk [c], HANDLER name), (name, HANDLER name)]
  | .OPT_ALT name alt => [(name, HANDLER name), (alt, HANDLER name)]
  | .OPT_CH name => [(String.mk [c], HANDLER name)]

/-- The long names a macro invocation declares, each with its cell. -/
def opt_entry.long_names : opt_entry → List (String × handler_ref)
  | .OPT name => [(name, HANDLER name)]
  | .OPT_ name => [(name, HANDLER name)]
  | .OPT_ALT name alt => [(name, HANDLER name), (alt, HANDLER name)]
  | .OPT_CH _ => []

/-- The one-character flag a macro invocation declares in the `case` labelled
`c`, with the long name of the option it is declared for. -/
def opt_entry.flag (c : Char) : opt_entry → List (String × String)
  | .OPT_ name => [(String.mk [c], name)]
  | .OPT_CH name => [(String.mk [c], name)]
  | _ => []

/-- Every name declared in the table (flags, long names, aliases) with the
cell it is declared for. -/
def option_keys : List (String × handler_ref) :=
  option_table.flatMap (fun ce => ce.2.flatMap (opt_entry.keys ce.1))

/-- Every long name or alias given to `OPT`, `OPT_` or `OPT_ALT`, with the
cell it is declared for. -/
def registered_long : List (String × handler_ref) :=
  option_table.flatMap (fun ce => ce.2.flatMap opt_entry.long_names)

/-- Every one-character flag of the table with the long name it is declared
for. -/
def single_char_flags : List (String × String) :=
  option_table.flatMap (fun ce => ce.2.flatMap (opt_entry.flag ce.1))

/-! ## The resolver `report_t::lookup` -/

/-- The report-driving member function a `reporter` is instantiated with; the
default template argument is `&report_t::xacts_report`. -/
inductive report_method where
  | xacts_report
  | accounts_report
  | commodities_report
  deriving DecidableEq

/-- The terminal handler a `reporter` is constructed with. The format-driven
handlers record the option cell their format string is read from. -/
inductive item_handler where
  | format_accounts (format : handler_ref)
  | format_xacts (format : handler_ref)
  | format_emacs_xacts
  | gather_statistics
  deriving DecidableEq

/-- The definitions `report_t::lookup` returns. -/
inductive op_t where
  /-- A definition built outside `report_t::lookup` (by the session). -/
  | external (id : Nat)
  /-- The functor `MAKE_FUNCTOR(report_t::method)`. -/
  | MAKE_FUNCTOR (method : String)
  /-- The functor `WRAP_FUNCTOR(function)` of a free command function. -/
  | WRAP_FUNCTOR (function : String)
  /-- A wrapped `reporter<…>(new handler, *this)`. -/
  | reporter (handler : item_handler) (method : report_method)
  /-- The handler `MAKE_OPT_HANDLER(report_t, cell)`. -/
  | MAKE_OPT_HANDLER (cell : handler_ref)
  /-- The accessor `MAKE_OPT_FUNCTOR(report_t, cell)`. -/
  | MAKE_OPT_FUNCTOR (cell : handler_ref)
  deriving DecidableEq

/-- The marker prefixes `CMD_PREFIX`, `PRECMD_PREFIX` and `OPT_PREFIX`. Their
literals are declared in a header that is not part of src/ and the
specification does not give them, so the resolver takes them as a
parameter. -/
structure markers where
  CMD_PREFIX : String
  PRECMD_PREFIX : String
  OPT_PREFIX : String
  deriving DecidableEq

/-- Modelled from the spec: the tests `WANT_CMD()`, `WANT_PRECMD()` and
`WANT_OPT()` are macros of a header that is not part of src/. Following
section 4.4 (the name carries the reserved marker) the test for the marker
`PREFIX` holds when the name begins with `PREFIX`. -/
def WANT (PREFIX p : String) : Bool :=
  PREFIX.data.isPrefixOf p.data

/-- The suffix `q = p + PREFIX_LEN` of a name that carries the marker
`PREFIX`, the constant `PREFIX_LEN` (not part of src/) being the length of the
marker. -/
def after_marker (PREFIX p : String) : String :=
  String.mk (p.data.drop PREFIX.length)

/-- The terminator of a C string. -/
def NUL : Char := Char.ofNat 0

/-- The C string `name.c_str()` denotes: the characters of `name` before its
first NUL. -/
def c_str (name : String) : String :=
  String.mk (name.data.takeWhile (fun ch => ch != NUL))

open op_t item_handler report_method in
/-- The inner `switch (*q)` under `WANT_CMD()`: `some` for each `return`,
`none` when control reaches the `break` of the enclosing `case`. -/
def lookup_command (q : String) : Option op_t :=
  match q.data with
  | [] => none
  | c :: _ =>
    if c = 'b' then
      if single_char q || is_eq q "bal" || is_eq q "balance" then
        some (reporter (format_accounts (HANDLER "balance_format_")) accounts_report)
      else none
    else if c = 'c' then
      if is_eq q "csv" then
        some (reporter (format_xacts (HANDLER "csv_format_")) xacts_report)
      else none
    else if c = 'e' then
      if is_eq q "equity" then
        some (reporter (format_xacts (HANDLER "print_format_")) xacts_report)
      else if is_eq q "entry" then
        some (WRAP_FUNCTOR "entry_command")
      else if is_eq q "emacs" then
        some (reporter format_emacs_xacts xacts_report)
      else none
    else if c = 'p' then
      if single_char q || is_eq q "print" then
        some (reporter (format_xacts (HANDLER "print_format_")) xacts_report)
      else if is_eq q "prices" then
        some (reporter (format_xacts (HANDLER "prices_format_")) commodities_report)
      else if is_eq q "pricesdb" then
        some (reporter (format_xacts (HANDLER "pricesdb_format_")) commodities_report)
      else none
    else if c = 'r' then
      if single_char q || is_eq q "reg" || is_eq q "register" then
        some (reporter (format_xacts (HANDLER "register_format_")) xacts_report)
      else if is_eq q "reload" then
        some (MAKE_FUNCTOR "reload_command")
      else none
    else if c = 's' then
      if is_eq q "stats" || is_eq q "stat" then
        some (reporter gather_statistics xacts_report)
      else none
    else none

open op_t in
/-- The inner `switch (*q)` under `WANT_PRECMD()`. -/
def lookup_precommand (q : String) : Option op_t :=
  match q.data with
  | [] => none
  | c :: _ =>
    if c = 'a' then
      if is_eq q "args" then some (WRAP_FUNCTOR "args_command") else none
    else if c = 'e' then
      if is_eq q "eval" then some (WRAP_FUNCTOR "eval_command") else none
    else if c = 'f' then
      if is_eq q "format" then some (WRAP_FUNCTOR "format_command") else none
    else if c = 'p' then
      if is_eq q "parse" then some (WRAP_FUNCTOR "parse_command")
      else if is_eq q "period" then some (WRAP_FUNCTOR "period_command")
      else none
    else if c = 't' then
      if is_eq q "template" then some (WRAP_FUNCTOR "template_command") else none
    else none

open op_t in
/-- The outer `switch (*p)` of `report_t::lookup`: `some` for each `return`
inside it, `none` when control leaves the `switch` through a `break` (or no
`case` is selected). -/
def lookup_switch (m : markers) (p : String) : Option op_t :=
  match p.data with
  | [] => none
  | c :: _ =>
    if c = 'a' then
      if is_eq p "amount_expr" then some (MAKE_FUNCTOR "fn_amount_expr") else none
    else if c = 'c' then
      if WANT m.CMD_PREFIX p then lookup_command (after_marker m.CMD_PREFIX p)
      else none
    else if c = 'd' then
      if is_eq p "display_amount" then some (MAKE_FUNCTOR "fn_display_amount")
      else if is_eq p "display_total" then some (MAKE_FUNCTOR "fn_display_total")
      else none
    else if c = 'f' then
      if is_eq p "format_date" then some (MAKE_FUNCTOR "fn_format_date") else none
    else if c = 'j' then
      if is_eq p "join" then some (MAKE_FUNCTOR "fn_join") else none
    else if c = 'm' then
      if is_eq p "market" then some (MAKE_FUNCTOR "fn_market_value") else none
    else if c = 'o' then
      if WANT m.OPT_PREFIX p then
        match lookup_option (after_marker m.OPT_PREFIX p) with
        | some handler => some (MAKE_OPT_HANDLER handler)
        | none => none
      else if is_eq p "options" then some (MAKE_FUNCTOR "fn_options")
      else none
    else if c = 'p' then
      if WANT m.PRECMD_PREFIX p then lookup_precommand (after_marker m.PRECMD_PREFIX p)
      else if is_eq p "print" then some (MAKE_FUNCTOR "fn_print")
      else none
    else if c = 'q' then
      if is_eq p "quoted" then some (MAKE_FUNCTOR "fn_quoted")
      else if is_eq p "quantity" then some (MAKE_FUNCTOR "fn_quantity")
      else none
    else if c = 's' then
      if is_eq p "strip" then some (MAKE_FUNCTOR "fn_strip") else none
    else if c = 't' then
      if is_eq p "truncate" then some (MAKE_FUNCTOR "fn_truncate")
      else if is_eq p "total_expr" then some (MAKE_FUNCTOR "fn_total_expr")
      else none
    else if c = 'x' then
      if is_eq p "xact" then some (MAKE_FUNCTOR "fn_false") else none
    else none

/-- The function `report_t::lookup`, with the enclosing resolver
`session.lookup` as the parameter `session_lookup`: a definition of the
session is returned as it is; otherwise the `switch` on the C string of the
name is tried, and after it the option lookup on the bare name. -/
def lookup (m : markers) (session_lookup : String → Option op_t) (name : String) :
    Option op_t :=
  match session_lookup name with
  | some defn => some defn
  | none =>
    let p := c_str name
    match lookup_switch m p with
    | some r => some r
    | none =>
      match lookup_option p with
      | some handler => some (op_t.MAKE_OPT_FUNCTOR handler)
      | none => none

/-- The fixed names the outer `switch` of `report_t::lookup` compares the
whole name against. -/
def builtin_names : List String :=
  ["amount_expr", "display_amount", "display_total", "format_date", "join",
   "market", "options", "print", "quoted", "quantity", "strip", "truncate",
   "total_expr", "xact"]

/-- What the source and the specification require of the markers:
`WANT_CMD()` is tested under the `case` labelled c, `WANT_OPT()` under the one
labelled o and `WANT_PRECMD()` under the one labelled p, so each marker begins
with that character; a marker is a C string literal; and a marker is
reserved, that is, no name declared in the option table begins with it. -/
def markers.reserved (m : markers) : Prop :=
  (m.CMD_PREFIX.data.head? = some 'c' ∧ m.PRECMD_PREFIX.data.head? = some 'p' ∧
    m.OPT_PREFIX.data.head? = some 'o') ∧
  (NUL ∉ m.CMD_PREFIX.data ∧ NUL ∉ m.PRECMD_PREFIX.data ∧ NUL ∉ m.OPT_PREFIX.data) ∧
  ∀ k ∈ option_keys, WANT m.CMD_PREFIX k.1 = false ∧ WANT m.PRECMD_PREFIX k.1 = false ∧
    WANT m.OPT_PREFIX k.1 = false

instance (m : markers) : Decidable m.reserved := by
  unfold markers.reserved; infer_instance

/-- A triple of markers that meets `markers.reserved`, used to evaluate the
resolver on concrete names. -/
def sample_markers : markers :=
  { CMD_PREFIX := "cmd_", PRECMD_PREFIX := "precmd_", OPT_PREFIX := "opt_" }

/-- The enclosing resolver that defines no name. -/
def no_session : String → Option op_t := fun _ => none

/-- The nine command names of section 4.4 of the specification. -/
def spec_command_names : List String :=
  ["balance", "register", "print", "csv", "equity", "prices", "pricesdb", "stats",
   "reload"]

/-- The suffixes for which the `switch (*q)` under `WANT_CMD()` has a
`return`, in source order. -/
def command_names : List String :=
  ["b", "bal", "balance", "csv", "equity", "entry", "emacs", "p", "print", "prices",
   "pricesdb", "r", "reg", "register", "reload", "stats", "stat"]

/-- The suffixes for which the `switch (*q)` under `WANT_PRECMD()` has a
`return`, in source order. -/
def precommand_names : List String :=
  ["args", "eval", "format", "parse", "period", "template"]

/-! ## The data of a report

The journal, its entries and postings, and the account tree are built outside
report.cc. A posting refers to its account by the account's `id`; an amount is
a quantity of one commodity, counted in its smallest unit. -/

/-- The state of an option cell that this file reads: `HANDLED(name)` and
`HANDLER(name).str()`. -/
structure option_t where
  handled : Bool
  value : String
  deriving DecidableEq

/-- The transient fields a report run writes on a posting (section 3 of the
specification: the assigned display account and display amount). -/
structure xdata_t where
  account : Option Nat
  amount : Option Int
  deriving DecidableEq

/-- A posting: its account, its amount, and its transient fields (`none` when
cleared). -/
structure xact_t where
  account : Nat
  amount : Int
  xdata : Option xdata_t
  deriving DecidableEq

/-- An entry: its postings in order. -/
structure entry_t where
  xacts : List xact_t
  deriving DecidableEq

/-- A journal: its entries in order. -/
structure journal_t where
  entries : List entry_t
  deriving DecidableEq

/-- An account: a node of the account tree with its accumulated-value cache
and its children in order. -/
inductive account_t where
  | mk (id : Nat) (value : Int) (accounts : List account_t)

/-- The identifier of an account. -/
def account_t.id : account_t → Nat
  | .mk i _ _ => i

/-- The accumulated value of an account. -/
def account_t.value : account_t → Int
  | .mk _ v _ => v

/-- The children of an account. -/
def account_t.accounts : account_t → List account_t
  | .mk _ _ cs => cs

/-- The session: the journal and the root (`master`) of the account tree. -/
structure session_t where
  journal : journal_t
  master : account_t

/-- The report: its option cells and the session it reports on. -/
structure report_t where
  cells : handler_ref → option_t
  session : session_t

/-- How a call ends: it returns, or it raises an evaluation error that
propagates to the caller. Either way `state` is what the call leaves behind
in the objects it mutates. -/
inductive result (σ : Type) where
  | returned (state : σ)
  | raised (error : String) (state : σ)

/-- The state a call leaves behind. -/
def result.state {σ : Type} : result σ → σ
  | .returned s => s
  | .raised _ s => s

/-- Whether the call returned. -/
def result.is_returned {σ : Type} : result σ → Bool
  | .returned _ => true
  | .raised _ _ => false

/-! ## Resetting transient state -/

/-- A posting with its transient fields cleared. -/
def xact_t.clear (x : xact_t) : xact_t := { x with xdata := none }

/-- Modelled from the spec: `session.clean_xacts(entry)` is defined outside
src/. Section 4.2: the core resets every transient field it wrote on
postings; here, on the postings of one entry. -/
def clean_xacts_entry (entry : entry_t) : entry_t :=
  { xacts := entry.xacts.map xact_t.clear }

/-- Modelled from the spec: `session.clean_xacts()` is defined outside src/.
It resets the transient fields of every posting of the journal. -/
def clean_xacts (session : session_t) : session_t :=
  { session with journal := { entries := session.journal.entries.map clean_xacts_entry } }

mutual
/-- An account tree with every accumulated value reset to zero. -/
def account_t.clear : account_t → account_t
  | .mk i _ cs => .mk i 0 (account_t.clear_each cs)
/-- The trees of a list, each with every accumulated value reset to zero. -/
def account_t.clear_each : List account_t → List account_t
  | [] => []
  | a :: rest => account_t.clear a :: account_t.clear_each rest
end

/-- Modelled from the spec: `session.clean_accounts()` is defined outside
src/. It resets the accumulated value of every account. -/
def clean_accounts (session : session_t) : session_t :=
  { session with master := session.master.clear }

/-! ## The posting pipeline -/

/-- The walker a report drives its pipeline with. -/
inductive walker_t where
  | journal_xacts_iterator
  | entry_xacts_iterator
  | xacts_commodities_iterator
  deriving DecidableEq

/-- What one run of a posting pipeline does to the objects of this file: the
transient fields it writes, addressed by the position of the entry among the
walked entries and of the posting in its entry (`none` where it writes
nothing), and the evaluation error that ended the run, if one did. What the
terminal handler prints is outside this file. -/
structure chain_run where
  writes : Nat → Nat → Option xdata_t
  error : Option String

/-- The call `pass_down_xacts(chain_xact_handlers(*this, handler), walker)`.
The chain composer, the stages and the terminal handlers are defined outside
src/, so the call is a parameter of the reports: from the walker, the option
cells and the walked entries to what the run does. -/
abbrev pipeline : Type :=
  walker_t → (handler_ref → option_t) → List entry_t → chain_run

/-- The postings of an entry after the writes `w` of a run, `i` being the
position of the first posting of the list. -/
def write_xacts (w : Nat → Option xdata_t) : Nat → List xact_t → List xact_t
  | _, [] => []
  | i, x :: rest =>
    (match w i with
      | some d => { x with xdata := some d }
      | none => x) :: write_xacts w (i + 1) rest

/-- The walked entries after the writes `w` of a run, `i` being the position
of the first entry of the list. -/
def write_entries (w : Nat → Nat → Option xdata_t) : Nat → List entry_t → List entry_t
  | _, [] => []
  | i, e :: rest => { xacts := write_xacts (w i) 0 e.xacts } :: write_entries w (i + 1) rest

/-! ## The reports on postings -/

/-- The function `report_t::xacts_report`: the pipeline is driven over the
postings of the journal, then `session.clean_xacts()` is called. An error
raised by the pipeline propagates before the call that follows it. -/
def report_t.xacts_report (report : report_t) (pass_down_xacts : pipeline) :
    result session_t :=
  let run := pass_down_xacts .journal_xacts_iterator report.cells
    report.session.journal.entries
  let session := { report.session with
    journal := { entries := write_entries run.writes 0 report.session.journal.entries } }
  match run.error with
  | some e => .raised e session
  | none => .returned (clean_xacts session)

/-- The function `report_t::entry_report`: the pipeline is driven over the
postings of `entry`, then `session.clean_xacts(entry)` is called. -/
def report_t.entry_report (report : report_t) (pass_down_xacts : pipeline)
    (entry : entry_t) : result entry_t :=
  let run := pass_down_xacts .entry_xacts_iterator report.cells [entry]
  let entry1 : entry_t := { xacts := write_xacts (run.writes 0) 0 entry.xacts }
  match run.error with
  | some e => .raised e entry1
  | none => .returned (clean_xacts_entry entry1)

/-- The function `report_t::commodities_report`: as `xacts_report`, with the
walker that yields one posting per commodity. -/
def report_t.commodities_report (report : report_t) (pass_down_xacts : pipeline) :
    result session_t :=
  let run := pass_down_xacts .xacts_commodities_iterator report.cells
    report.session.journal.entries
  let session := { report.session with
    journal := { entries := write_entries run.writes 0 report.session.journal.entries } }
  match run.error with
  | some e => .raised e session
  | none => .returned (clean_xacts session)

/-! ## The aggregator -/

mutual
/-- The tree with `amount` added to the accumulated value of the account
`id`. -/
def account_t.add_value (id : Nat) (amount : Int) : account_t → account_t
  | .mk i v cs =>
    .mk i (if i = id then v + amount else v) (account_t.add_value_each id amount cs)
/-- The trees of a list with `amount` added to the accumulated value of the
account `id`. -/
def account_t.add_value_each (id : Nat) (amount : Int) : List account_t → List account_t
  | [] => []
  | a :: rest => account_t.add_value id amount a :: account_t.add_value_each id amount rest
end

/-- Modelled from the spec: the handler `set_account_value` is defined
outside src/. Section 4.3 (b): a collector stage that adds each accepted
posting's amount directly into its target account's accumulated value. -/
def set_account_value (xact : xact_t) (master : account_t) : account_t :=
  master.add_value xact.account xact.amount

/-- Modelled from the spec: the chain `chain_xact_handlers(*this, handler,
true)` is defined outside src/. Section 4.3 (b): a minimal pipeline
consisting only of the selection predicate (the `limit_` cell, when it is
set) in front of the handler. `item_predicate`, the evaluation of a predicate
text on a posting, is a parameter; it may raise an evaluation error. -/
def selection (item_predicate : String → xact_t → Except String Bool)
    (cells : handler_ref → option_t) (xact : xact_t) : Except String Bool :=
  if (cells (HANDLER "limit_")).handled then
    item_predicate (cells (HANDLER "limit_")).value xact
  else .ok true

/-- Modelled from the spec: `journal_xacts_iterator` is defined outside src/.
Section 4.1: all postings of a journal in journal order. -/
def journal_xacts (journal : journal_t) : List xact_t :=
  journal.entries.flatMap entry_t.xacts

/-- Modelled from the spec: `pass_down_xacts` is defined outside src/. It
feeds every posting of the walker, in order, to the chain: here the selection
predicate followed by `set_account_value`. An error raised for a posting ends
the run and leaves the accounts as the postings before it left them. -/
def pass_down_to_accounts (accept : xact_t → Except String Bool) :
    List xact_t → account_t → result account_t
  | [], master => .returned master
  | x :: rest, master =>
    match accept x with
    | .error e => .raised e master
    | .ok true => pass_down_to_accounts accept rest (set_account_value x master)
    | .ok false => pass_down_to_accounts accept rest master

/-- The sum of the accumulated values of a list of accounts. -/
def account_t.total : List account_t → Int
  | [] => 0
  | a :: rest => a.value + account_t.total rest

mutual
/-- Modelled from the spec: `account_t::calculate_sums` is defined outside
src/. Section 4.3 (d): one post-order traversal of the account tree, adding
each child's accumulated value into its parent's. -/
def account_t.calculate_sums : account_t → account_t
  | .mk i v cs =>
    .mk i (v + account_t.total (account_t.calculate_sums_each cs))
      (account_t.calculate_sums_each cs)
/-- The traversal `calculate_sums` of each tree of a list, in order. -/
def account_t.calculate_sums_each : List account_t → List account_t
  | [] => []
  | a :: rest => account_t.calculate_sums a :: account_t.calculate_sums_each rest
end

/-- The function `report_t::sum_all_accounts`: the postings of the journal
are passed down the minimal chain that ends in `set_account_value`, then
`session.master->calculate_sums(expr)` is called. The calls `set_context` and
`mark_uncompiled` concern the compiled form of the amount expression and
change neither a posting nor an account. -/
def report_t.sum_all_accounts (report : report_t)
    (item_predicate : String → xact_t → Except String Bool) : result session_t :=
  match pass_down_to_accounts (selection item_predicate report.cells)
      (journal_xacts report.session.journal) report.session.master with
  | .raised e master => .raised e { report.session with master := master }
  | .returned master =>
    .returned { report.session with master := master.calculate_sums }

/-! ## The report on accounts -/

mutual
/-- Modelled from the spec: `basic_accounts_iterator` is defined outside
src/. Section 4.1: the accounts in pre-order, parent before children. -/
def basic_accounts_iterator : account_t → List account_t
  | .mk i v cs => .mk i v cs :: basic_accounts_iterator_each cs
/-- The accounts of the trees of a list in pre-order. -/
def basic_accounts_iterator_each : List account_t → List account_t
  | [] => []
  | a :: rest => basic_accounts_iterator a ++ basic_accounts_iterator_each rest
end

/-- Modelled from the spec: `pass_down_accounts` is defined outside src/.
Section 4.2: a single terminal handler, optionally preceded by a
display-predicate filter. Every account of the iterator, in order, is handed
to the handler when there is no predicate or the predicate holds for it; the
state is the list of the accounts handed over. An error raised by the
predicate ends the run. -/
def pass_down_accounts (predicate : Option (account_t → Except String Bool)) :
    List account_t → List account_t → result (List account_t)
  | [], delivered => .returned delivered
  | a :: rest, delivered =>
    match predicate with
    | none => pass_down_accounts predicate rest (delivered ++ [a])
    | some holds =>
      match holds a with
      | .error e => .raised e delivered
      | .ok true => pass_down_accounts predicate rest (delivered ++ [a])
      | .ok false => pass_down_accounts predicate rest delivered

/-- What a run of `accounts_report` leaves behind: the session and the
accounts handed to the terminal handler, in order, each with the accumulated
value it had when it was handed over. -/
structure accounts_run where
  session : session_t
  delivered : List account_t

/-- The function `report_t::accounts_report`. The parameters stand for code
outside src/: `item_predicate` and `account_predicate` evaluate a predicate
text on a posting and on an account, `sorted_accounts_iterator` is the walker
used when `sort_` is set. -/
def report_t.accounts_report (report : report_t)
    (item_predicate : String → xact_t → Except String Bool)
    (account_predicate : String → account_t → Except String Bool)
    (sorted_accounts_iterator : String → Bool → account_t → List account_t) :
    result accounts_run :=
  match report.sum_all_accounts item_predicate with
  | .raised e session => .raised e { session := session, delivered := [] }
  | .returned session =>
    let iter :=
      if ! (report.cells (HANDLER "sort_")).handled then
        basic_accounts_iterator session.master
      else
        sorted_accounts_iterator (report.cells (HANDLER "sort_")).value
          (report.cells (HANDLER "flat")).handled session.master
    let passed :=
      if (report.cells (HANDLER "display_")).handled then
        pass_down_accounts
          (some (account_predicate (report.cells (HANDLER "display_")).value)) iter []
      else pass_down_accounts none iter []
    match passed with
    | .raised e delivered => .raised e { session := session, delivered := delivered }
    | .returned delivered =>
      .returned { session := clean_accounts (clean_xacts session), delivered := delivered }

/-! ## The reporter adapter -/

/-- Modelled from the spec: `option_t::on` is defined outside src/. Section
4.5: the text is installed as the value of the cell, replacing any value
already installed, and the cell counts as set. -/
def option_t.on (_cell : option_t) (str : String) : option_t :=
  { handled := true, value := str }

/-- The report after `report.HANDLER(cell).on(str)`. -/
def report_t.on (report : report_t) (cell : handler_ref) (str : String) : report_t :=
  { report with
    cells := fun k => if k = cell then (report.cells k).on str else report.cells k }

/-- The function `reporter<…>::operator()`: when there are call arguments the
predicate text built from them is installed in the `limit_` cell, then the
bound report method is run. `args_to_predicate_expr` (outside src/) is a
parameter; `report_method` is the bound member function together with the
bound handler: it reads the option cells and mutates the session. A run that
returns stands for `return true`. -/
def reporter_call (args_to_predicate_expr : List String → String)
    (report_method : report_t → result session_t) (args : List String)
    (report : report_t) : result report_t :=
  let report1 :=
    if args.length > 0 then report.on (HANDLER "limit_") (args_to_predicate_expr args)
    else report
  match report_method report1 with
  | .returned session => .returned { report1 with session := session }
  | .raised e session => .raised e { report1 with session := session }

/-! ## Built-in functions on text -/

/-- The double quote character. -/
def DQUOTE : Char := Char.ofNat 34

/-- The backslash character. -/
def BACKSLASH : Char := Char.ofNat 92

/-- The newline character. -/
def NEWLINE : Char := Char.ofNat 10

/-- The function `report_t::fn_quoted` on the text of its argument 0: the
stream receives a double quote, then for each character of the text a
backslash and a double quote if the character is a double quote and the
character itself otherwise, then a double quote. -/
def fn_quoted (text : String) : String :=
  let out : List Char := [DQUOTE]
  let out := text.data.foldl
    (fun out ch => if ch = DQUOTE then out ++ [BACKSLASH, DQUOTE] else out ++ [ch]) out
  String.mk (out ++ [DQUOTE])

/-- The function `report_t::fn_join` on the text of its argument 0: the
stream receives each character of the text that is not a newline. -/
def fn_join (text : String) : String :=
  String.mk (text.data.foldl (fun out ch => if ch ≠ NEWLINE then out ++ [ch] else out) [])

/-- What `fn_quoted` writes for one character, as the specification words it:
an embedded quote character is escaped. -/
def escape_char (ch : Char) : List Char :=
  if ch = DQUOTE then [BACKSLASH, DQUOTE] else [ch]

/-- The reading of a quoted body the claim describes: the backslash that
immediately precedes a double quote is deleted. -/
def unescape : List Char → List Char
  | [] => []
  | [c] => [c]
  | c :: d :: rest =>
    if c = BACKSLASH ∧ d = DQUOTE then DQUOTE :: unescape rest
    else c :: unescape (d :: rest)

/-- The reading of a quoted text the claim describes: the outer quotes are
stripped, then the body is read by `unescape`. -/
def unquote (quoted : String) : String :=
  String.mk (unescape quoted.data.tail.dropLast)

/-! ## Pristine state and the vocabulary of the claims -/

/-- An entry none of whose postings holds transient fields. -/
def entry_t.pristine (entry : entry_t) : Prop :=
  ∀ x ∈ entry.xacts, x.xdata = none

instance (entry : entry_t) : Decidable entry.pristine := by
  unfold entry_t.pristine; infer_instance

mutual
/-- Whether every accumulated value of the tree is zero. -/
def account_t.is_clear : account_t → Bool
  | .mk _ v cs => decide (v = 0) && account_t.is_clear_each cs
/-- Whether every accumulated value of the trees of a list is zero. -/
def account_t.is_clear_each : List account_t → Bool
  | [] => true
  | a :: rest => account_t.is_clear a && account_t.is_clear_each rest
end

/-- The pristine state of a session: no posting of the journal holds
transient fields and every accumulated value is zero. -/
def session_t.pristine (session : session_t) : Prop :=
  (∀ e ∈ session.journal.entries, entry_t.pristine e) ∧ session.master.is_clear = true

instance (session : session_t) : Decidable session.pristine := by
  unfold session_t.pristine; infer_instance

/-- Whether the evaluation of a predicate returned true. -/
def holds : Except String Bool → Bool
  | .ok true => true
  | _ => false

/-- The accepted postings of a report: the postings of the journal, in
order, for which the selection predicate returns true. -/
def accepted_xacts (item_predicate : String → xact_t → Except String Bool)
    (report : report_t) : List xact_t :=
  (journal_xacts report.session.journal).filter
    (fun x => holds (selection item_predicate report.cells x))

/-- The sum of the amounts of the postings of `xacts` posted directly to the
account `id`. -/
def direct_amount (xacts : List xact_t) (id : Nat) : Int :=
  ((xacts.filter (fun x => decide (x.account = id))).map xact_t.amount).sum

mutual
/-- The tree with `d i` added to the accumulated value of each account
`i`. -/
def account_t.credited (d : Nat → Int) : account_t → account_t
  | .mk i v cs => .mk i (v + d i) (account_t.credited_each d cs)
/-- The trees of a list with `d i` added to the accumulated value of each
account `i`. -/
def account_t.credited_each (d : Nat → Int) : List account_t → List account_t
  | [] => []
  | a :: rest => account_t.credited d a :: account_t.credited_each d rest
end

/-- The accumulated values of a list of accounts, each with the account's
identifier. -/
def account_values (accounts : List account_t) : List (Nat × Int) :=
  accounts.map (fun a => (a.id, a.value))

/-! ## Sample data

The journal of scenario A of the specification: the accounts Expenses (1),
Expenses:Food (2), Income (3) and Income:Salary (4) under the root (0), and one
entry with the postings Expenses:Food 10, Expenses:Food 5 and
Income:Salary -15. -/

/-- The account tree of scenario A, every accumulated value zero. -/
def scenario_master : account_t :=
  .mk 0 0 [.mk 1 0 [.mk 2 0 []], .mk 3 0 [.mk 4 0 []]]

/-- The journal of scenario A. -/
def scenario_journal : journal_t :=
  { entries := [{ xacts := [{ account := 2, amount := 10, xdata := none },
                            { account := 2, amount := 5, xdata := none },
                            { account := 4, amount := -15, xdata := none }] }] }

/-- Option cells none of which is set. -/
def no_cells : handler_ref → option_t :=
  fun _ => { handled := false, value := "" }

/-- The report of scenario A: no option set, pristine session. -/
def scenario_report : report_t :=
  { cells := no_cells, session := { journal := scenario_journal, master := scenario_master } }

/-- The report of scenario A with the display predicate "food" set. -/
def scenario_report_display : report_t :=
  scenario_report.on (HANDLER "display_") "food"

/-- The report of scenario A with the selection predicate "salary" set. -/
def scenario_report_limit : report_t :=
  scenario_report.on (HANDLER "limit_") "salary"

/-- A predicate on postings that accepts every posting. -/
def accept_all : String → xact_t → Except String Bool :=
  fun _ _ => .ok true

/-- A predicate on postings whose evaluation raises an error on a posting to
the account 4 and accepts every other posting. -/
def raise_on_salary : String → xact_t → Except String Bool :=
  fun _ x => if x.account = 4 then .error "evaluation error" else .ok true

/-- A predicate on accounts that holds for the account 2 alone. -/
def only_food : String → account_t → Except String Bool :=
  fun _ a => .ok (decide (a.id = 2))

/-- A sorted walker that yields the accounts in pre-order. -/
def sorted_as_basic : String → Bool → account_t → List account_t :=
  fun _ _ master => basic_accounts_iterator master

/-- A pipeline run that writes transient fields on the first posting of the
first entry and returns. -/
def marking_pipeline : pipeline :=
  fun _ _ _ =>
    { writes := fun i j =>
        if i = 0 ∧ j = 0 then some { account := some 2, amount := some 10 } else none,
      error := none }

/-- A pipeline run that writes transient fields on the first posting of the
first entry and then raises an evaluation error. -/
def raising_pipeline : pipeline :=
  fun _ _ _ =>
    { writes := fun i j =>
        if i = 0 ∧ j = 0 then some { account := some 2, amount := some 10 } else none,
      error := some "evaluation error" }

/-- A report method that leaves the session as it is. -/
def idle_method : report_t → result session_t :=
  fun report => .returned report.session

/-- A builder of predicate text that joins the arguments with blanks. -/
def join_args : List String → String :=
  fun args => " ".intercalate args

/-- A session that defines the name "opt_market" and nothing else. -/
def market_session : String → Option op_t :=
  fun name => if name = "opt_market" then some (op_t.external 7) else none

/-! ## General facts about the option table -/

theorem first_match_some {p : String} {es : List opt_entry} {h : handler_ref}
    (hm : first_match p es = some h) : ∃ e ∈ es, e.accepts p = true ∧ e.cell = h := by
  induction es with
  | nil => simp [first_match] at hm
  | cons e es ih =>
    unfold first_match at hm
    by_cases he : e.accepts p = true
    · rw [if_pos he] at hm
      exact ⟨e, List.mem_cons_self _ _, he, Option.some.inj hm⟩
    · rw [if_neg he] at hm
      obtain ⟨e1, hmem, hacc, hcell⟩ := ih hm
      exact ⟨e1, List.mem_cons_of_mem _ hmem, hacc, hcell⟩

theorem find_case_some {c : Char} {t : List (Char × List opt_entry)} {es : List opt_entry}
    (hf : find_case c t = some es) : (c, es) ∈ t := by
  induction t with
  | nil => simp [find_case] at hf
  | cons x rest ih =>
    obtain ⟨l, es1⟩ := x
    unfold find_case at hf
    by_cases hc : c = l
    · rw [if_pos hc] at hf
      cases hf
      subst hc
      exact List.mem_cons_self _ _
    · rw [if_neg hc] at hf
      exact List.mem_cons_of_mem _ (ih hf)

theorem single_char_data {p : String} {c : Char} {t : List Char}
    (hd : p.data = c :: t) (hs : single_char p = true) : p = String.mk [c] := by
  unfold single_char at hs
  rw [hd] at hs
  cases t with
  | nil => exact String.ext hd
  | cons a t => simp at hs

theorem accepts_mem_keys {p : String} {c : Char} {t : List Char} {e : opt_entry}
    (hd : p.data = c :: t) (ha : e.accepts p = true) : (p, e.cell) ∈ e.keys c := by
  cases e with
  | OPT name =>
    have : p = name := by simpa [opt_entry.accepts, is_eq] using ha
    subst this
    simp [opt_entry.keys, opt_entry.cell]
  | OPT_ name =>
    simp only [opt_entry.accepts, Bool.or_eq_true, is_eq, decide_eq_true_eq] at ha
    rcases ha with hs | hn
    · rw [single_char_data hd hs]
      simp [opt_entry.keys, opt_entry.cell]
    · subst hn
      simp [opt_entry.keys, opt_entry.cell]
  | OPT_ALT name alt =>
    simp only [opt_entry.accepts, Bool.or_eq_true, is_eq, decide_eq_true_eq] at ha
    rcases ha with hn | hn
    · subst hn
      simp [opt_entry.keys, opt_entry.cell]
    · subst hn
      simp [opt_entry.keys, opt_entry.cell]
  | OPT_CH name =>
    rw [single_char_data hd ha]
    simp [opt_entry.keys, opt_entry.cell]

/-- A name that `lookup_option` resolves is declared in the table, for the
cell that is returned. -/
theorem lookup_option_mem_keys {p : String} {h : handler_ref}
    (hl : lookup_option p = some h) : (p, h) ∈ option_keys := by
  unfold lookup_option at hl
  split at hl
  · simp at hl
  · rename_i c t hd
    split at hl
    · simp at hl
    · rename_i es hf
      obtain ⟨e, hmem, hacc, hcell⟩ := first_match_some hl
      have hk := accepts_mem_keys hd hacc
      rw [hcell] at hk
      unfold option_keys
      exact List.mem_flatMap.mpr ⟨(c, es), find_case_some hf,
        List.mem_flatMap.mpr ⟨e, hmem, hk⟩⟩

set_option maxRecDepth 100000 in
theorem keys_long_of_length :
    ∀ k ∈ option_keys, 2 ≤ k.1.length → k ∈ registered_long := by decide!

/-- A name of two or more characters that is not a registered long name or
alias resolves to nothing. -/
theorem lookup_option_none_of_not_registered {p : String} (hlen : 2 ≤ p.length)
    (hn : ∀ c, (p, c) ∉ registered_long) : lookup_option p = none := by
  cases hl : lookup_option p with
  | none => rfl
  | some h =>
    exact absurd (keys_long_of_length _ (lookup_option_mem_keys hl) hlen) (hn h)

set_option maxRecDepth 100000 in
theorem registered_long_resolve :
    ∀ e ∈ registered_long, e.1 ≠ "cost" → lookup_option e.1 = some e.2 := by decide!

set_option maxRecDepth 100000 in
theorem registered_prefix_own_cell :
    ∀ n ∈ registered_long, ∀ k ∈ registered_long,
      k.1.data.isPrefixOf n.1.data = true → k.1 ≠ n.1 →
        lookup_option k.1 = some k.2 ∧ k.2 ≠ n.2 := by decide!

set_option maxRecDepth 100000 in
theorem registered_long_length : ∀ n ∈ registered_long, 2 ≤ n.1.length := by decide!

theorem length_pos_of_ne_empty {s : String} (hs : s ≠ "") : 1 ≤ s.length := by
  rcases s with ⟨l⟩
  cases l with
  | nil => exact absurd rfl hs
  | cons a l => simp [String.length]

/-! ## General facts about the resolver -/

theorem c_str_of_no_nul {s : String} (hs : NUL ∉ s.data) : c_str s = s := by
  unfold c_str
  apply String.ext
  show s.data.takeWhile (fun ch => ch != NUL) = s.data
  rw [List.takeWhile_eq_self_iff]
  intro ch hch
  have : ch ≠ NUL := fun h => hs (h ▸ hch)
  simpa using this

theorem WANT_append (M s : String) : WANT M (M ++ s) = true := by
  unfold WANT
  rw [String.data_append, List.isPrefixOf_iff_prefix]
  exact List.prefix_append _ _

theorem after_marker_append (M s : String) : after_marker M (M ++ s) = s := by
  unfold after_marker
  apply String.ext
  show (M ++ s).data.drop M.length = s.data
  rw [String.data_append]
  exact List.drop_left _ _

theorem no_nul_append {M s : String} (hM : NUL ∉ M.data) (hs : NUL ∉ s.data) :
    NUL ∉ (M ++ s).data := by
  rw [String.data_append, List.mem_append]
  exact fun h => h.elim hM hs

theorem data_append_of_head {M s : String} {c : Char} (h : M.data.head? = some c) :
    ∃ t, (M ++ s).data = c :: t := by
  rw [String.data_append]
  cases hd : M.data with
  | nil => rw [hd] at h; simp at h
  | cons a t =>
    rw [hd] at h
    simp only [List.head?_cons, Option.some.injEq] at h
    exact ⟨t ++ s.data, by rw [h]; rfl⟩

/-- A name that begins with a reserved marker is not resolved by the option
lookup. -/
theorem lookup_option_carrying_marker {M : String}
    (hM : ∀ k ∈ option_keys, WANT M k.1 = false) (s : String) :
    lookup_option (M ++ s) = none := by
  cases hl : lookup_option (M ++ s) with
  | none => rfl
  | some h =>
    have := hM _ (lookup_option_mem_keys hl)
    rw [WANT_append] at this
    exact absurd this (by decide)

/-- The outer `switch` returns only for a fixed built-in name or for a name
that carries one of the three markers: on every other name control leaves it
through a `break`. -/
theorem lookup_switch_none {m : markers} {p : String} (hb : p ∉ builtin_names)
    (h1 : WANT m.CMD_PREFIX p = false) (h2 : WANT m.PRECMD_PREFIX p = false)
    (h3 : WANT m.OPT_PREFIX p = false) : lookup_switch m p = none := by
  have e : ∀ n ∈ builtin_names, is_eq p n = false := by
    intro n hn
    unfold is_eq
    exact decide_eq_false (fun h => hb (h ▸ hn))
  have e01 := e "amount_expr" (by decide)
  have e02 := e "display_amount" (by decide)
  have e03 := e "display_total" (by decide)
  have e04 := e "format_date" (by decide)
  have e05 := e "join" (by decide)
  have e06 := e "market" (by decide)
  have e07 := e "options" (by decide)
  have e08 := e "print" (by decide)
  have e09 := e "quoted" (by decide)
  have e10 := e "quantity" (by decide)
  have e11 := e "strip" (by decide)
  have e12 := e "truncate" (by decide)
  have e13 := e "total_expr" (by decide)
  have e14 := e "xact" (by decide)
  unfold lookup_switch
  split
  · rfl
  · simp only [e01, e02, e03, e04, e05, e06, e07, e08, e09, e10, e11, e12, e13, e14,
      h1, h2, h3, Bool.false_eq_true, if_false, ite_self]

theorem lookup_switch_command {m : markers} (hc : m.CMD_PREFIX.data.head? = some 'c')
    (s : String) : lookup_switch m (m.CMD_PREFIX ++ s) = lookup_command s := by
  obtain ⟨t, ht⟩ := data_append_of_head (s := s) hc
  unfold lookup_switch
  simp only [ht]
  rw [if_neg (by decide)]
  rw [if_pos trivial, if_pos (WANT_append _ _), after_marker_append]

theorem lookup_switch_option {m : markers} (hc : m.OPT_PREFIX.data.head? = some 'o')
    (s : String) :
    lookup_switch m (m.OPT_PREFIX ++ s) = (lookup_option s).map op_t.MAKE_OPT_HANDLER := by
  obtain ⟨t, ht⟩ := data_append_of_head (s := s) hc
  unfold lookup_switch
  simp only [ht]
  rw [if_neg (by decide), if_neg (by decide), if_neg (by decide), if_neg (by decide), if_neg (by decide), if_neg (by decide)]
  rw [if_pos trivial, if_pos (WANT_append _ _), after_marker_append]
  cases lookup_option s <;> rfl

theorem lookup_switch_precommand {m : markers}
    (hc : m.PRECMD_PREFIX.data.head? = some 'p') (s : String) :
    lookup_switch m (m.PRECMD_PREFIX ++ s) = lookup_precommand s := by
  obtain ⟨t, ht⟩ := data_append_of_head (s := s) hc
  unfold lookup_switch
  simp only [ht]
  rw [if_neg (by decide), if_neg (by decide), if_neg (by decide), if_neg (by decide), if_neg (by decide), if_neg (by decide), if_neg (by decide)]
  rw [if_pos trivial, if_pos (WANT_append _ _), after_marker_append]

/-- What `lookup` returns once the session has no definition and the `switch`
has been left through a `break`. -/
theorem lookup_eq_of_switch {m : markers} {sess : String → Option op_t} {name : String}
    (hn : sess name = none) (hz : NUL ∉ name.data) :
    lookup m sess name =
      (lookup_switch m name).orElse
        (fun _ => (lookup_option name).map op_t.MAKE_OPT_FUNCTOR) := by
  unfold lookup
  rw [hn]
  simp only [c_str_of_no_nul hz]
  cases lookup_switch m name with
  | some r => rfl
  | none => cases lookup_option name <;> rfl

/-- A name that carries the command marker is resolved by the command
dispatch alone. -/
theorem lookup_carrying_command {m : markers} {sess : String → Option op_t} {s : String}
    (hm : m.reserved) (hz : NUL ∉ s.data) (hn : sess (m.CMD_PREFIX ++ s) = none) :
    lookup m sess (m.CMD_PREFIX ++ s) = lookup_command s := by
  obtain ⟨⟨hc, _, _⟩, ⟨zc, _, _⟩, hk⟩ := hm
  rw [lookup_eq_of_switch hn (no_nul_append zc hz), lookup_switch_command hc,
    lookup_option_carrying_marker (fun k hmem => (hk k hmem).1)]
  cases lookup_command s <;> rfl

/-- A name that carries the precommand marker is resolved by the precommand
dispatch alone. -/
theorem lookup_carrying_precommand {m : markers} {sess : String → Option op_t} {s : String}
    (hm : m.reserved) (hz : NUL ∉ s.data) (hn : sess (m.PRECMD_PREFIX ++ s) = none) :
    lookup m sess (m.PRECMD_PREFIX ++ s) = lookup_precommand s := by
  obtain ⟨⟨_, hc, _⟩, ⟨_, zc, _⟩, hk⟩ := hm
  rw [lookup_eq_of_switch hn (no_nul_append zc hz), lookup_switch_precommand hc,
    lookup_option_carrying_marker (fun k hmem => (hk k hmem).2.1)]
  cases lookup_precommand s <;> rfl

/-- A name that carries the option marker is resolved by the option lookup on
the rest of the name. -/
theorem lookup_carrying_option {m : markers} {sess : String → Option op_t} {s : String}
    (hm : m.reserved) (hz : NUL ∉ s.data) (hn : sess (m.OPT_PREFIX ++ s) = none) :
    lookup m sess (m.OPT_PREFIX ++ s) = (lookup_option s).map op_t.MAKE_OPT_HANDLER := by
  obtain ⟨⟨_, _, hc⟩, ⟨_, _, zc⟩, hk⟩ := hm
  rw [lookup_eq_of_switch hn (no_nul_append zc hz), lookup_switch_option hc,
    lookup_option_carrying_marker (fun k hmem => (hk k hmem).2.2)]
  cases lookup_option s <;> rfl

set_option maxRecDepth 100000 in
theorem option_keys_no_nul : ∀ k ∈ option_keys, NUL ∉ k.1.data := by decide!

/-- A declared option name that is not a fixed built-in name is resolved by
the fallback after the `switch`, as an accessor of its cell. -/
theorem lookup_bare_option {m : markers} {sess : String → Option op_t} {name : String}
    {h : handler_ref} (hm : m.reserved) (hn : sess name = none)
    (hl : lookup_option name = some h) (hb : name ∉ builtin_names) :
    lookup m sess name = some (op_t.MAKE_OPT_FUNCTOR h) := by
  have hk := lookup_option_mem_keys hl
  obtain ⟨_, _, hw⟩ := hm
  rw [lookup_eq_of_switch hn (option_keys_no_nul _ hk),
    lookup_switch_none hb (hw _ hk).1 (hw _ hk).2.1 (hw _ hk).2.2, hl]
  rfl

theorem lookup_command_none {s : String} (h : s ∉ command_names) :
    lookup_command s = none := by
  have e : ∀ n ∈ command_names, is_eq s n = false := by
    intro n hn
    unfold is_eq
    exact decide_eq_false (fun hs => h (hs ▸ hn))
  have e01 := e "bal" (by decide)
  have e02 := e "balance" (by decide)
  have e03 := e "csv" (by decide)
  have e04 := e "equity" (by decide)
  have e05 := e "entry" (by decide)
  have e06 := e "emacs" (by decide)
  have e07 := e "print" (by decide)
  have e08 := e "prices" (by decide)
  have e09 := e "pricesdb" (by decide)
  have e10 := e "reg" (by decide)
  have e11 := e "register" (by decide)
  have e12 := e "reload" (by decide)
  have e13 := e "stats" (by decide)
  have e14 := e "stat" (by decide)
  unfold lookup_command
  split
  · rfl
  · rename_i c t hd
    cases hs : single_char s with
    | false =>
      simp only [e01, e02, e03, e04, e05, e06, e07, e08, e09, e10, e11, e12, e13, e14,
        Bool.or_self, Bool.false_eq_true, if_false, ite_self]
    | true =>
      have hc := single_char_data hd hs
      have hb : ¬ c = 'b' := fun hx => h (by rw [hc, hx]; decide)
      have hp : ¬ c = 'p' := fun hx => h (by rw [hc, hx]; decide)
      have hr : ¬ c = 'r' := fun hx => h (by rw [hc, hx]; decide)
      simp only [e01, e02, e03, e04, e05, e06, e07, e08, e09, e10, e11, e12, e13, e14,
        hb, hp, hr, Bool.or_self, Bool.false_eq_true, if_false, ite_self]

theorem lookup_command_some : ∀ s ∈ command_names, (lookup_command s).isSome = true := by
  decide!

theorem lookup_precommand_none {s : String} (h : s ∉ precommand_names) :
    lookup_precommand s = none := by
  have e : ∀ n ∈ precommand_names, is_eq s n = false := by
    intro n hn
    unfold is_eq
    exact decide_eq_false (fun hs => h (hs ▸ hn))
  have e1 := e "args" (by decide)
  have e2 := e "eval" (by decide)
  have e3 := e "format" (by decide)
  have e4 := e "parse" (by decide)
  have e5 := e "period" (by decide)
  have e6 := e "template" (by decide)
  unfold lookup_precommand
  split
  · rfl
  · simp only [e1, e2, e3, e4, e5, e6, Bool.false_eq_true, if_false, ite_self]

theorem lookup_precommand_some :
    ∀ s ∈ precommand_names, (lookup_precommand s).isSome = true := by
  decide!

theorem lookup_precommand_injective :
    ∀ s1 ∈ precommand_names, ∀ s2 ∈ precommand_names,
      lookup_precommand s1 = lookup_precommand s2 → s1 = s2 := by
  decide!

theorem precommand_names_no_nul : ∀ s ∈ precommand_names, NUL ∉ s.data := by decide!

theorem sample_markers_reserved : sample_markers.reserved := by decide!

set_option maxRecDepth 100000 in
theorem single_char_flags_resolve :
    ∀ fl ∈ single_char_flags,
      lookup_option fl.1 = some (HANDLER fl.2) ∧ lookup_option fl.2 = some (HANDLER fl.2) ∧
        fl.1 ∉ builtin_names := by decide!

theorem lookup_switch_market (m : markers) :
    lookup_switch m "market" = some (op_t.MAKE_FUNCTOR "fn_market_value") := by
  unfold lookup_switch
  simp only [show ("market" : String).data = 'm' :: ['a', 'r', 'k', 'e', 't'] from rfl]
  rw [if_neg (by decide), if_neg (by decide), if_neg (by decide), if_neg (by decide),
    if_neg (by decide)]
  rw [if_pos trivial, if_pos (by decide)]

theorem lookup_switch_quantity (m : markers) :
    lookup_switch m "quantity" = some (op_t.MAKE_FUNCTOR "fn_quantity") := by
  unfold lookup_switch
  simp only [show ("quantity" : String).data = 'q' :: ['u', 'a', 'n', 't', 'i', 't', 'y']
    from rfl]
  rw [if_neg (by decide), if_neg (by decide), if_neg (by decide), if_neg (by decide),
    if_neg (by decide), if_neg (by decide), if_neg (by decide), if_neg (by decide)]
  rw [if_pos trivial, if_neg (by decide), if_pos (by decide)]

/-! ## Aliases -/

/-- C1: the alias "cost" is declared for the cell of "basis" (`OPT_ALT(basis,
cost)`), yet `lookup_option` resolves only "basis": the alias stands in the
chain of the `case` labelled b, which a name beginning with c never reaches,
so `lookup_option "cost"` returns no cell. -/
theorem cost_alias_not_resolved :
    ("cost", HANDLER "basis") ∈ registered_long ∧
    lookup_option "basis" = some (HANDLER "basis") ∧
    lookup_option "cost" = none := by decide!

/-- C2: each of the aliases commodity_as_payee, commodity_as_account, first_
and last_ resolves to a cell, and it is the cell its canonical name
(comm_as_payee, comm_as_account, head_, tail_) resolves to. -/
theorem declared_aliases_share_cell :
    (lookup_option "commodity_as_payee" = some (HANDLER "comm_as_payee") ∧
      lookup_option "comm_as_payee" = some (HANDLER "comm_as_payee")) ∧
    (lookup_option "commodity_as_account" = some (HANDLER "comm_as_account") ∧
      lookup_option "comm_as_account" = some (HANDLER "comm_as_account")) ∧
    (lookup_option "first_" = some (HANDLER "head_") ∧
      lookup_option "head_" = some (HANDLER "head_")) ∧
    (lookup_option "last_" = some (HANDLER "tail_") ∧
      lookup_option "tail_" = some (HANDLER "tail_")) := by decide!

/-! ## Totality and exactness of the option lookup -/

/-- C3: every long name or alias given to `OPT`, `OPT_` or `OPT_ALT` other
than "cost" resolves to the cell it is declared for, whereas "cost", declared
for the cell of "basis", resolves to no cell. -/
theorem registered_names_resolve_except_cost :
    (∀ e ∈ registered_long, e.1 ≠ "cost" → lookup_option e.1 = some e.2) ∧
    ("cost", HANDLER "basis") ∈ registered_long ∧
    lookup_option "cost" = none :=
  ⟨registered_long_resolve, by decide!, by decide!⟩

/-- C4: no prefix or partial match. A proper prefix `q` (two characters or
more) of a registered long name `n` resolves to its own cell, different from
the cell of `n`, when `q` is itself registered, and to nothing otherwise; and
a registered long name extended by one character or more resolves to nothing
unless the extended name is itself registered. -/
theorem no_prefix_or_partial_match :
    (∀ n ∈ registered_long, ∀ q : String, 2 ≤ q.length → q.data <+: n.1.data → q ≠ n.1 →
      (∀ c, (q, c) ∈ registered_long → lookup_option q = some c ∧ c ≠ n.2) ∧
      ((∀ c, (q, c) ∉ registered_long) → lookup_option q = none)) ∧
    (∀ n ∈ registered_long, ∀ s : String, s ≠ "" →
      (∀ c, (n.1 ++ s, c) ∉ registered_long) → lookup_option (n.1 ++ s) = none) := by
  refine ⟨?_, ?_⟩
  · intro n hn q hlen hpre hne
    refine ⟨?_, lookup_option_none_of_not_registered hlen⟩
    intro c hq
    exact registered_prefix_own_cell n hn (q, c) hq
      (List.isPrefixOf_iff_prefix.mpr hpre) hne
  · intro n hn s hs hnot
    refine lookup_option_none_of_not_registered ?_ hnot
    have h1 := registered_long_length n hn
    have h2 := length_pos_of_ne_empty hs
    rw [String.length_append]
    omega

/-! ## Single-character flags -/

/-- C5: the one-character flags of the table are the 28 declared with
`OPT_CH` and the 10 declared with `OPT_`; for each of them the one-character
name and the long name it is declared for resolve to the same cell, and
`report_t::lookup` on the one-character name, when the session defines
nothing for it, returns the accessor of that cell. -/
theorem single_char_flag_equivalence :
    single_char_flags.map Prod.fst =
      ["%", "A", "B", "C", "D", "E", "F", "G", "I", "J", "L", "M", "O", "P", "R", "S",
       "T", "U", "V", "W", "Y", "Z", "b", "c", "d", "e", "g", "j", "l", "n", "o", "p",
       "r", "s", "t", "w", "x", "y"] ∧
    ∀ fl ∈ single_char_flags,
      lookup_option fl.1 = lookup_option fl.2 ∧
      lookup_option fl.2 = some (HANDLER fl.2) ∧
      ∀ (m : markers) (sess : String → Option op_t), m.reserved → sess fl.1 = none →
        lookup m sess fl.1 = some (op_t.MAKE_OPT_FUNCTOR (HANDLER fl.2)) := by
  refine ⟨by decide!, ?_⟩
  intro fl hfl
  obtain ⟨h1, h2, h3⟩ := single_char_flags_resolve fl hfl
  refine ⟨h1.trans h2.symm, h2, ?_⟩
  intro m sess hm hn
  exact lookup_bare_option hm hn h1 h3

/-- The flag "n" and the long name "collapse" at the sample markers, a case
of C5. -/
theorem single_char_flag_equivalence_witness :
    lookup_option "n" = lookup_option "collapse" ∧
    lookup sample_markers no_session "n" =
      some (op_t.MAKE_OPT_FUNCTOR (HANDLER "collapse")) :=
  have h := single_char_flag_equivalence.2 ("n", "collapse") (by decide!)
  ⟨h.1, h.2.2 sample_markers no_session sample_markers_reserved rfl⟩

/-! ## Commands and precommands -/

open op_t item_handler report_method in
/-- C6: when the session defines none of them, each of the nine command names
of the specification, carried after the command marker, resolves to an
invocable: balance to a reporter driven by `accounts_report`; register,
print, csv, equity and stats to reporters driven by `xacts_report`; prices
and pricesdb to reporters driven by `commodities_report`; reload to the
functor of `reload_command`. -/
theorem spec_commands_resolve (m : markers) (sess : String → Option op_t)
    (hm : m.reserved)
    (hn : ∀ s ∈ spec_command_names, sess (m.CMD_PREFIX ++ s) = none) :
    lookup m sess (m.CMD_PREFIX ++ "balance") =
      some (reporter (format_accounts (HANDLER "balance_format_")) accounts_report) ∧
    lookup m sess (m.CMD_PREFIX ++ "register") =
      some (reporter (format_xacts (HANDLER "register_format_")) xacts_report) ∧
    lookup m sess (m.CMD_PREFIX ++ "print") =
      some (reporter (format_xacts (HANDLER "print_format_")) xacts_report) ∧
    lookup m sess (m.CMD_PREFIX ++ "csv") =
      some (reporter (format_xacts (HANDLER "csv_format_")) xacts_report) ∧
    lookup m sess (m.CMD_PREFIX ++ "equity") =
      some (reporter (format_xacts (HANDLER "print_format_")) xacts_report) ∧
    lookup m sess (m.CMD_PREFIX ++ "prices") =
      some (reporter (format_xacts (HANDLER "prices_format_")) commodities_report) ∧
    lookup m sess (m.CMD_PREFIX ++ "pricesdb") =
      some (reporter (format_xacts (HANDLER "pricesdb_format_")) commodities_report) ∧
    lookup m sess (m.CMD_PREFIX ++ "stats") =
      some (reporter gather_statistics xacts_report) ∧
    lookup m sess (m.CMD_PREFIX ++ "reload") = some (MAKE_FUNCTOR "reload_command") := by
  have key : ∀ s ∈ spec_command_names, NUL ∉ s.data →
      lookup m sess (m.CMD_PREFIX ++ s) = lookup_command s :=
    fun s hs hz => lookup_carrying_command hm hz (hn s hs)
  refine ⟨?_, ?_, ?_, ?_, ?_, ?_, ?_, ?_, ?_⟩ <;>
    (rw [key _ (by decide) (by decide)]; decide)

open op_t item_handler report_method in
/-- The command names "balance" and "reload" at the sample markers, with a
session that defines nothing, a case of C6. -/
theorem spec_commands_resolve_witness :
    sample_markers.reserved ∧
    lookup sample_markers no_session "cmd_balance" =
      some (reporter (format_accounts (HANDLER "balance_format_")) accounts_report) ∧
    lookup sample_markers no_session "cmd_reload" = some (MAKE_FUNCTOR "reload_command") :=
  have h := spec_commands_resolve sample_markers no_session sample_markers_reserved
    (fun _ _ => rfl)
  ⟨sample_markers_reserved, h.1, h.2.2.2.2.2.2.2.2⟩

/-- C7, as stated, fails: the suffix "entry" is not one of the nine command
names of the specification, yet the name that carries it after the command
marker resolves to the functor of `entry_command`. -/
theorem entry_command_is_recognised :
    "entry" ∉ spec_command_names ∧
    sample_markers.reserved ∧
    no_session (sample_markers.CMD_PREFIX ++ "entry") = none ∧
    lookup sample_markers no_session (sample_markers.CMD_PREFIX ++ "entry") =
      some (op_t.WRAP_FUNCTOR "entry_command") := by decide!

/-- C7, amended: the recognised commands are the nine of the specification
together with entry and emacs and the abbreviations b, bal, p, r, reg and
stat. When the session defines nothing for it, a name that carries the
command marker resolves to nothing exactly when its suffix is none of
these. -/
theorem recognised_commands (m : markers) (sess : String → Option op_t) (s : String)
    (hm : m.reserved) (hz : NUL ∉ s.data) (hn : sess (m.CMD_PREFIX ++ s) = none) :
    lookup m sess (m.CMD_PREFIX ++ s) = none ↔ s ∉ command_names := by
  rw [lookup_carrying_command hm hz hn]
  constructor
  · intro h hs
    have := lookup_command_some s hs
    rw [h] at this
    exact absurd this (by decide)
  · exact lookup_command_none

/-- The suffixes "entries" and "balances" at the sample markers, a case of
the amended C7. -/
theorem recognised_commands_witness :
    lookup sample_markers no_session "cmd_entries" = none ∧
    lookup sample_markers no_session "cmd_balances" = none :=
  ⟨(recognised_commands sample_markers no_session "entries" sample_markers_reserved
      (by decide) rfl).mpr (by decide),
   (recognised_commands sample_markers no_session "balances" sample_markers_reserved
      (by decide) rfl).mpr (by decide)⟩

/-- C8: when the session defines no name that carries the precommand marker,
such a name resolves to an invocable exactly when its suffix is one of args,
eval, format, parse, period and template, and these six suffixes resolve to
six different invocables. -/
theorem precommand_dispatch (m : markers) (sess : String → Option op_t)
    (hm : m.reserved) (hn : ∀ s, sess (m.PRECMD_PREFIX ++ s) = none) :
    (∀ s : String, NUL ∉ s.data →
      ((lookup m sess (m.PRECMD_PREFIX ++ s)).isSome = true ↔ s ∈ precommand_names) ∧
      (s ∉ precommand_names → lookup m sess (m.PRECMD_PREFIX ++ s) = none)) ∧
    (∀ s1 ∈ precommand_names, ∀ s2 ∈ precommand_names,
      lookup m sess (m.PRECMD_PREFIX ++ s1) = lookup m sess (m.PRECMD_PREFIX ++ s2) →
        s1 = s2) := by
  refine ⟨?_, ?_⟩
  · intro s hz
    rw [lookup_carrying_precommand hm hz (hn s)]
    refine ⟨⟨?_, lookup_precommand_some s⟩, lookup_precommand_none⟩
    intro h
    by_contra hs
    rw [lookup_precommand_none hs] at h
    exact absurd h (by decide)
  · intro s1 h1 s2 h2
    rw [lookup_carrying_precommand hm (precommand_names_no_nul s1 h1) (hn s1),
      lookup_carrying_precommand hm (precommand_names_no_nul s2 h2) (hn s2)]
    exact lookup_precommand_injective s1 h1 s2 h2

/-- The suffixes "parse", "", "par" and "periods" at the sample markers, a
case of C8. -/
theorem precommand_dispatch_witness :
    (lookup sample_markers no_session "precmd_parse").isSome = true ∧
    lookup sample_markers no_session "precmd_" = none ∧
    lookup sample_markers no_session "precmd_par" = none ∧
    lookup sample_markers no_session "precmd_periods" = none :=
  have h := (precommand_dispatch sample_markers no_session sample_markers_reserved
    (fun _ => rfl)).1
  ⟨((h "parse" (by decide)).1).mpr (by decide), (h "" (by decide)).2 (by decide),
    (h "par" (by decide)).2 (by decide), (h "periods" (by decide)).2 (by decide)⟩

/-! ## Option marker, bare names and built-in functions -/

/-- C9: let the session define nothing for `X` and for `X` after the option
marker. If `lookup_option X` returns a cell and `X` is not a fixed built-in
name, then `lookup` on the marked name returns the handler of that cell and
`lookup` on `X` returns the accessor of that same cell; and if `lookup_option
X` returns nothing, `lookup` on the marked name returns nothing. -/
theorem option_marker_and_bare_name_agree (m : markers) (sess : String → Option op_t)
    (X : String) (hm : m.reserved) (hz : NUL ∉ X.data)
    (hn1 : sess (m.OPT_PREFIX ++ X) = none) (hn2 : sess X = none) :
    (∀ cell, lookup_option X = some cell → X ∉ builtin_names →
      lookup m sess (m.OPT_PREFIX ++ X) = some (op_t.MAKE_OPT_HANDLER cell) ∧
      lookup m sess X = some (op_t.MAKE_OPT_FUNCTOR cell)) ∧
    (lookup_option X = none → lookup m sess (m.OPT_PREFIX ++ X) = none) := by
  refine ⟨?_, ?_⟩
  · intro cell hl hb
    refine ⟨?_, lookup_bare_option hm hn2 hl hb⟩
    rw [lookup_carrying_option hm hz hn1, hl]
    rfl
  · intro hl
    rw [lookup_carrying_option hm hz hn1, hl]
    rfl

/-- The names "limit_" and "limit" at the sample markers, a case of C9. -/
theorem option_marker_and_bare_name_agree_witness :
    (lookup sample_markers no_session "opt_limit_" =
        some (op_t.MAKE_OPT_HANDLER (HANDLER "limit_")) ∧
      lookup sample_markers no_session "limit_" =
        some (op_t.MAKE_OPT_FUNCTOR (HANDLER "limit_"))) ∧
    lookup sample_markers no_session "opt_limit" = none :=
  ⟨(option_marker_and_bare_name_agree sample_markers no_session "limit_"
      sample_markers_reserved (by decide) rfl rfl).1 (HANDLER "limit_") (by decide!)
      (by decide),
   (option_marker_and_bare_name_agree sample_markers no_session "limit"
      sample_markers_reserved (by decide) rfl rfl).2 (by decide!)⟩

/-- C10: "market" and "quantity" are both a fixed built-in name and a
registered long option. When the session defines nothing for them, `lookup`
on the bare name returns the built-in function (`fn_market_value`,
`fn_quantity`) and not the accessor of the option cell, while the name after
the option marker returns the handler of the option cell. For every other
built-in name of the claim the option lookup on the bare name returns
nothing. -/
theorem builtin_before_option_fallback (m : markers) (sess : String → Option op_t)
    (hm : m.reserved)
    (hn : ∀ X ∈ ["market", "quantity"], sess X = none ∧ sess (m.OPT_PREFIX ++ X) = none) :
    (lookup_option "market" = some (HANDLER "market") ∧
      lookup m sess "market" = some (op_t.MAKE_FUNCTOR "fn_market_value") ∧
      lookup m sess (m.OPT_PREFIX ++ "market") =
        some (op_t.MAKE_OPT_HANDLER (HANDLER "market"))) ∧
    (lookup_option "quantity" = some (HANDLER "quantity") ∧
      lookup m sess "quantity" = some (op_t.MAKE_FUNCTOR "fn_quantity") ∧
      lookup m sess (m.OPT_PREFIX ++ "quantity") =
        some (op_t.MAKE_OPT_HANDLER (HANDLER "quantity"))) ∧
    (∀ X ∈ ["amount_expr", "total_expr", "display_amount", "display_total",
        "format_date", "join", "print", "quoted", "strip", "truncate"],
      lookup_option X = none) := by
  have hmk := hn "market" (by decide)
  have hq := hn "quantity" (by decide)
  refine ⟨⟨by decide!, ?_, ?_⟩, ⟨by decide!, ?_, ?_⟩, by decide!⟩
  · rw [lookup_eq_of_switch hmk.1 (by decide), lookup_switch_market]
    rfl
  · rw [lookup_carrying_option hm (by decide) hmk.2]
    decide!
  · rw [lookup_eq_of_switch hq.1 (by decide), lookup_switch_quantity]
    rfl
  · rw [lookup_carrying_option hm (by decide) hq.2]
    decide!

/-- The names "market" and "quantity" at the sample markers, a case of
C10. -/
theorem builtin_before_option_fallback_witness :
    lookup sample_markers no_session "market" =
      some (op_t.MAKE_FUNCTOR "fn_market_value") ∧
    lookup sample_markers no_session "opt_market" =
      some (op_t.MAKE_OPT_HANDLER (HANDLER "market")) ∧
    lookup sample_markers no_session "quantity" = some (op_t.MAKE_FUNCTOR "fn_quantity") :=
  have h := builtin_before_option_fallback sample_markers no_session
    sample_markers_reserved (fun _ _ => ⟨rfl, rfl⟩)
  ⟨h.1.2.1, h.1.2.2, h.2.1.2.1⟩

/-! ## The outer resolver -/

/-- C11: a definition of the enclosing session resolver is what `lookup`
returns, whatever the name (a built-in name, a name that carries a marker, an
option name); and `lookup` returns nothing only if the session resolver
returns nothing. -/
theorem session_definition_wins (m : markers) (sess : String → Option op_t)
    (name : String) :
    (∀ defn, sess name = some defn → lookup m sess name = some defn) ∧
    (lookup m sess name = none → sess name = none) := by
  refine ⟨?_, ?_⟩
  · intro defn h
    unfold lookup
    rw [h]
  · intro h
    cases hs : sess name with
    | none => rfl
    | some defn =>
      unfold lookup at h
      rw [hs] at h
      exact absurd h (by simp)

/-- The names "opt_market" and "market" with a session that defines the
first, a case of C11. -/
theorem session_definition_wins_witness :
    lookup sample_markers market_session "opt_market" = some (op_t.external 7) ∧
    lookup sample_markers no_session "opt_market" =
      some (op_t.MAKE_OPT_HANDLER (HANDLER "market")) :=
  ⟨(session_definition_wins sample_markers market_session "opt_market").1 _ (by decide),
    by decide!⟩

/-! ## Built-in functions on text -/

theorem quoted_foldl (l out : List Char) :
    l.foldl (fun out ch => if ch = DQUOTE then out ++ [BACKSLASH, DQUOTE] else out ++ [ch])
      out = out ++ l.flatMap escape_char := by
  induction l generalizing out with
  | nil => simp
  | cons c rest ih =>
    rw [List.foldl_cons, ih, List.flatMap_cons]
    unfold escape_char
    by_cases hc : c = DQUOTE
    · simp [hc]
    · simp [hc]

theorem fn_quoted_data (s : String) :
    (fn_quoted s).data = DQUOTE :: (s.data.flatMap escape_char ++ [DQUOTE]) := by
  unfold fn_quoted
  simp only [quoted_foldl]
  rfl

theorem escape_length (l : List Char) :
    (l.flatMap escape_char).length = l.length + l.count DQUOTE := by
  induction l with
  | nil => simp
  | cons c rest ih =>
    rw [List.flatMap_cons, List.length_append, ih, List.length_cons, List.count_cons]
    unfold escape_char
    by_cases hc : c = DQUOTE
    · simp [hc]; omega
    · simp [hc]; omega

theorem escape_head_ne_quote :
    ∀ (l : List Char) (d : Char) (t : List Char), l.flatMap escape_char = d :: t →
      d ≠ DQUOTE := by
  intro l d t h
  cases l with
  | nil => simp at h
  | cons c rest =>
    rw [List.flatMap_cons] at h
    unfold escape_char at h
    by_cases hc : c = DQUOTE
    · rw [if_pos hc] at h
      simp only [List.cons_append, List.nil_append, List.cons.injEq] at h
      rw [← h.1]
      decide
    · rw [if_neg hc] at h
      simp only [List.cons_append, List.nil_append, List.cons.injEq] at h
      rw [← h.1]
      exact hc

theorem unescape_escape (l : List Char) : unescape (l.flatMap escape_char) = l := by
  induction l with
  | nil => rfl
  | cons c rest ih =>
    rw [List.flatMap_cons]
    by_cases hc : c = DQUOTE
    · have : escape_char c = [BACKSLASH, DQUOTE] := by unfold escape_char; rw [if_pos hc]
      rw [this]
      show unescape (BACKSLASH :: DQUOTE :: rest.flatMap escape_char) = c :: rest
      unfold unescape
      rw [if_pos ⟨rfl, rfl⟩, ih, hc]
    · have : escape_char c = [c] := by unfold escape_char; rw [if_neg hc]
      rw [this]
      show unescape (c :: rest.flatMap escape_char) = c :: rest
      cases hr : rest.flatMap escape_char with
      | nil =>
        rw [hr] at ih
        rw [← ih]
        rfl
      | cons d t =>
        have hd := escape_head_ne_quote rest d t hr
        unfold unescape
        rw [if_neg (fun h => hd h.2), ← hr, ih]

theorem unquote_fn_quoted (s : String) : unquote (fn_quoted s) = s := by
  unfold unquote
  rw [fn_quoted_data]
  apply String.ext
  show unescape ((s.data.flatMap escape_char ++ [DQUOTE]).dropLast) = s.data
  rw [List.dropLast_concat, unescape_escape]

theorem join_foldl (l out : List Char) :
    l.foldl (fun out ch => if ch ≠ NEWLINE then out ++ [ch] else out) out =
      out ++ l.filter (fun ch => decide (ch ≠ NEWLINE)) := by
  induction l generalizing out with
  | nil => simp
  | cons c rest ih =>
    rw [List.foldl_cons, ih]
    by_cases hc : c = NEWLINE
    · simp [hc]
    · simp [hc]

theorem fn_join_data (s : String) :
    (fn_join s).data = s.data.filter (fun ch => decide (ch ≠ NEWLINE)) := by
  unfold fn_join
  simp only [join_foldl]
  rfl

/-- C18: `fn_quoted` returns a double quote, then the text with every double
quote replaced by a backslash and a double quote and every other character
(a backslash too) unchanged and in order, then a double quote; the length of
the result is the length of the text plus 2 plus the number of its double
quotes; and in the text of scenario C, he said "hi" with two embedded quotes,
each embedded quote is escaped once. -/
theorem fn_quoted_escapes_quotes :
    (∀ s : String,
      (fn_quoted s).data = [DQUOTE] ++ s.data.flatMap escape_char ++ [DQUOTE] ∧
      (fn_quoted s).length = s.length + 2 + s.data.count DQUOTE) ∧
    (escape_char DQUOTE = [BACKSLASH, DQUOTE] ∧ escape_char BACKSLASH = [BACKSLASH] ∧
      ∀ ch, ch ≠ DQUOTE → escape_char ch = [ch]) ∧
    fn_quoted (String.mk ("he said ".data ++ [DQUOTE] ++ "hi".data ++ [DQUOTE])) =
      String.mk ([DQUOTE] ++ "he said ".data ++ [BACKSLASH, DQUOTE] ++ "hi".data ++
        [BACKSLASH, DQUOTE] ++ [DQUOTE]) := by
  refine ⟨?_, ⟨by decide, by decide, ?_⟩, by decide⟩
  · intro s
    refine ⟨by rw [fn_quoted_data]; rfl, ?_⟩
    show (fn_quoted s).data.length = s.data.length + 2 + s.data.count DQUOTE
    rw [fn_quoted_data, List.length_cons, List.length_append, escape_length]
    simp only [List.length_singleton]
    omega
  · intro ch hc
    unfold escape_char
    rw [if_neg hc]

/-- C19: `fn_join` returns the text with every newline removed and the other
characters in their order; the result holds no newline, is the text itself
when the text holds none, and is left unchanged by `fn_join`. -/
theorem fn_join_removes_newlines (s : String) :
    (fn_join s).data = s.data.filter (fun ch => decide (ch ≠ NEWLINE)) ∧
    NEWLINE ∉ (fn_join s).data ∧
    (NEWLINE ∉ s.data → fn_join s = s) ∧
    fn_join (fn_join s) = fn_join s := by
  refine ⟨fn_join_data s, ?_, ?_, ?_⟩
  · rw [fn_join_data]
    simp
  · intro h
    apply String.ext
    rw [fn_join_data, List.filter_eq_self]
    intro ch hch
    exact decide_eq_true (fun hc => h (hc ▸ hch))
  · apply String.ext
    rw [fn_join_data, fn_join_data, List.filter_filter]
    simp

/-- C20: `fn_quoted` is injective, and reading its result back (the outer
quotes stripped, the backslash before each double quote deleted) gives the
text it was applied to. -/
theorem fn_quoted_injective :
    (∀ s t : String, fn_quoted s = fn_quoted t → s = t) ∧
    (∀ s : String, unquote (fn_quoted s) = s) := by
  refine ⟨?_, unquote_fn_quoted⟩
  intro s t h
  rw [← unquote_fn_quoted s, ← unquote_fn_quoted t, h]

/-! ## The reporter adapter -/

theorem reporter_call_cells (f : List String → String)
    (method : report_t → result session_t) (args : List String) (report : report_t) :
    (reporter_call f method args report).state.cells =
      (if args.length > 0 then report.on (HANDLER "limit_") (f args) else report).cells := by
  unfold reporter_call
  dsimp only
  split <;> rfl

theorem length_pos_of_ne_nil {args : List String} (h : args ≠ []) : args.length > 0 :=
  List.length_pos.mpr h

/-- C12: a reporter invoked with a non-empty argument list leaves the
`limit_` cell holding exactly the predicate text built from those arguments,
whatever the cell held before, and leaves every other cell as it was; after
an invocation with the arguments `A` and then one with the non-empty
arguments `B` the cell holds the text built from `B` alone; an invocation
with no argument leaves every cell, `limit_` too, as it was. -/
theorem reporter_replaces_predicate (f : List String → String)
    (method1 method2 : report_t → result session_t) (report : report_t) :
    (∀ args, args ≠ [] →
      (reporter_call f method1 args report).state.cells (HANDLER "limit_") =
        { handled := true, value := f args } ∧
      ∀ k, k ≠ HANDLER "limit_" →
        (reporter_call f method1 args report).state.cells k = report.cells k) ∧
    (∀ A B, B ≠ [] →
      (reporter_call f method2 B (reporter_call f method1 A report).state).state.cells
          (HANDLER "limit_") = { handled := true, value := f B }) ∧
    (reporter_call f method1 [] report).state.cells = report.cells := by
  refine ⟨?_, ?_, ?_⟩
  · intro args h
    rw [reporter_call_cells, if_pos (length_pos_of_ne_nil h)]
    refine ⟨?_, ?_⟩
    · simp only [report_t.on, option_t.on, if_true]
    · intro k hk
      simp only [report_t.on, if_neg hk]
  · intro A B h
    rw [reporter_call_cells, if_pos (length_pos_of_ne_nil h)]
    simp only [report_t.on, option_t.on, if_true]
  · rw [reporter_call_cells]
    rfl

/-- The arguments food and then salary on the report of scenario A with the
selection predicate "salary" already set, a case of C12. -/
theorem reporter_replaces_predicate_witness :
    (scenario_report_limit.cells (HANDLER "limit_")).value = "salary" ∧
    (reporter_call join_args idle_method ["food", "drink"] scenario_report_limit).state.cells
      (HANDLER "limit_") = { handled := true, value := "food drink" } ∧
    (reporter_call join_args idle_method ["salary"]
      (reporter_call join_args idle_method ["food", "drink"]
        scenario_report_limit).state).state.cells
      (HANDLER "limit_") = { handled := true, value := "salary" } :=
  have h := reporter_replaces_predicate join_args idle_method idle_method
    scenario_report_limit
  ⟨by decide, (h.1 ["food", "drink"] (by decide)).1, h.2.1 ["food", "drink"] ["salary"]
    (by decide)⟩

/-! ## General facts about the reports -/

theorem write_xacts_clear (w : Nat → Option xdata_t) :
    ∀ (l : List xact_t) (i : Nat), (write_xacts w i l).map xact_t.clear = l.map xact_t.clear
  | [], _ => rfl
  | x :: rest, i => by
    unfold write_xacts
    rw [List.map_cons, List.map_cons, write_xacts_clear w rest (i + 1)]
    cases w i <;> rfl

theorem write_entries_clean (w : Nat → Nat → Option xdata_t) :
    ∀ (l : List entry_t) (i : Nat),
      (write_entries w i l).map clean_xacts_entry = l.map clean_xacts_entry
  | [], _ => rfl
  | e :: rest, i => by
    unfold write_entries
    rw [List.map_cons, List.map_cons, write_entries_clean w rest (i + 1)]
    unfold clean_xacts_entry
    rw [write_xacts_clear]

theorem clean_xacts_entry_of_pristine {entry : entry_t} (h : entry.pristine) :
    clean_xacts_entry entry = entry := by
  unfold clean_xacts_entry
  have : entry.xacts.map xact_t.clear = entry.xacts := by
    conv_rhs => rw [← List.map_id entry.xacts]
    apply List.map_congr_left
    intro x hx
    have hx1 := h x hx
    cases x with
    | mk a b c =>
      simp only at hx1
      subst hx1
      rfl
  rw [this]

theorem clean_entries_of_pristine {entries : List entry_t}
    (h : ∀ e ∈ entries, entry_t.pristine e) : entries.map clean_xacts_entry = entries := by
  conv_rhs => rw [← List.map_id entries]
  apply List.map_congr_left
  intro e he
  exact clean_xacts_entry_of_pristine (h e he)

mutual
theorem clear_of_is_clear : ∀ a : account_t, a.is_clear = true → a.clear = a
  | .mk i v cs => by
    intro h
    unfold account_t.is_clear at h
    rw [Bool.and_eq_true, decide_eq_true_eq] at h
    unfold account_t.clear
    rw [clear_each_of_is_clear cs h.2, h.1]
theorem clear_each_of_is_clear :
    ∀ l : List account_t, account_t.is_clear_each l = true → account_t.clear_each l = l
  | [] => fun _ => rfl
  | a :: rest => by
    intro h
    unfold account_t.is_clear_each at h
    rw [Bool.and_eq_true] at h
    unfold account_t.clear_each
    rw [clear_of_is_clear a h.1, clear_each_of_is_clear rest h.2]
end

mutual
theorem clear_add_value (id : Nat) (amount : Int) :
    ∀ a : account_t, (a.add_value id amount).clear = a.clear
  | .mk i v cs => by
    unfold account_t.add_value account_t.clear
    rw [clear_each_add_value id amount cs]
theorem clear_each_add_value (id : Nat) (amount : Int) :
    ∀ l : List account_t,
      account_t.clear_each (account_t.add_value_each id amount l) = account_t.clear_each l
  | [] => rfl
  | a :: rest => by
    unfold account_t.add_value_each account_t.clear_each
    rw [clear_add_value id amount a, clear_each_add_value id amount rest]
end

mutual
theorem clear_calculate_sums : ∀ a : account_t, a.calculate_sums.clear = a.clear
  | .mk i v cs => by
    unfold account_t.calculate_sums account_t.clear
    rw [clear_each_calculate_sums cs]
theorem clear_each_calculate_sums :
    ∀ l : List account_t,
      account_t.clear_each (account_t.calculate_sums_each l) = account_t.clear_each l
  | [] => rfl
  | a :: rest => by
    unfold account_t.calculate_sums_each account_t.clear_each
    rw [clear_calculate_sums a, clear_each_calculate_sums rest]
end

theorem pass_down_to_accounts_clear (accept : xact_t → Except String Bool) :
    ∀ (xs : List xact_t) (master : account_t),
      (pass_down_to_accounts accept xs master).state.clear = master.clear
  | [], _ => rfl
  | x :: rest, master => by
    unfold pass_down_to_accounts
    split
    · rfl
    · rw [pass_down_to_accounts_clear accept rest, set_account_value, clear_add_value]
    · rw [pass_down_to_accounts_clear accept rest]

/-- The aggregator leaves the journal as it is and changes nothing of the
account tree but accumulated values. -/
theorem sum_all_accounts_frame (report : report_t)
    (item_predicate : String → xact_t → Except String Bool) :
    (report.sum_all_accounts item_predicate).state.journal = report.session.journal ∧
    (report.sum_all_accounts item_predicate).state.master.clear =
      report.session.master.clear := by
  have h := pass_down_to_accounts_clear (selection item_predicate report.cells)
    (journal_xacts report.session.journal) report.session.master
  unfold report_t.sum_all_accounts
  split
  · rename_i e master heq
    rw [heq] at h
    exact ⟨rfl, h⟩
  · rename_i master heq
    rw [heq] at h
    refine ⟨rfl, ?_⟩
    show master.calculate_sums.clear = _
    rw [clear_calculate_sums]
    exact h

/-- The two resets at the end of `accounts_report` undo the aggregator when
the session was pristine before it. -/
theorem clean_after_sum_all_accounts (report : report_t)
    (item_predicate : String → xact_t → Except String Bool)
    (hp : report.session.pristine) :
    clean_accounts (clean_xacts (report.sum_all_accounts item_predicate).state) =
      report.session := by
  obtain ⟨hj, hm⟩ := sum_all_accounts_frame report item_predicate
  obtain ⟨hpj, hpm⟩ := hp
  cases hs : (report.sum_all_accounts item_predicate).state with
  | mk journal master =>
    rw [hs] at hj hm
    simp only at hj hm
    unfold clean_accounts clean_xacts
    simp only
    rw [hm, clear_of_is_clear _ hpm, hj, clean_entries_of_pristine hpj]

theorem clean_written_session (session : session_t) (w : Nat → Nat → Option xdata_t)
    (hp : session.pristine) :
    clean_xacts { session with
      journal := { entries := write_entries w 0 session.journal.entries } } = session := by
  unfold clean_xacts
  simp only
  rw [write_entries_clean, clean_entries_of_pristine hp.1]

theorem clean_written_entry (entry : entry_t) (w : Nat → Option xdata_t)
    (hp : entry.pristine) :
    clean_xacts_entry { xacts := write_xacts w 0 entry.xacts } = entry := by
  have h := clean_xacts_entry_of_pristine hp
  unfold clean_xacts_entry at h ⊢
  simp only
  rw [write_xacts_clear]
  exact h

/-- From a pristine state, a run of `accounts_report` that returns leaves the
session it started from. -/
theorem accounts_report_returned_session (report : report_t)
    (item_predicate : String → xact_t → Except String Bool)
    (account_predicate : String → account_t → Except String Bool)
    (sorted_accounts_iterator : String → Bool → account_t → List account_t)
    (hp : report.session.pristine) {run : accounts_run}
    (h : report.accounts_report item_predicate account_predicate
      sorted_accounts_iterator = .returned run) : run.session = report.session := by
  have hc := clean_after_sum_all_accounts report item_predicate hp
  unfold report_t.accounts_report at h
  split at h
  · cases h
  · rename_i session heq
    rw [heq] at hc
    dsimp only at h
    split at h
    · cases h
    · cases h
      exact hc

theorem report_with_own_session (report : report_t) :
    { report with session := report.session } = report := by
  cases report
  rfl

theorem sum_all_accounts_congr {r1 r2 : report_t}
    (item_predicate : String → xact_t → Except String Bool)
    (hs : r2.session = r1.session)
    (hl : r2.cells (HANDLER "limit_") = r1.cells (HANDLER "limit_")) :
    r2.sum_all_accounts item_predicate = r1.sum_all_accounts item_predicate := by
  have hsel : selection item_predicate r2.cells = selection item_predicate r1.cells := by
    funext x
    unfold selection
    rw [hl]
  unfold report_t.sum_all_accounts
  rw [hsel, hs]

theorem pass_down_accounts_none :
    ∀ (l delivered : List account_t),
      pass_down_accounts none l delivered = .returned (delivered ++ l)
  | [], delivered => by
    unfold pass_down_accounts
    rw [List.append_nil]
  | a :: rest, delivered => by
    unfold pass_down_accounts
    rw [pass_down_accounts_none rest, List.append_assoc]
    rfl

theorem pass_down_accounts_some (f : account_t → Except String Bool) :
    ∀ (l delivered out : List account_t),
      pass_down_accounts (some f) l delivered = .returned out →
        out = delivered ++ l.filter (fun a => holds (f a))
  | [], delivered, out => by
    intro h
    unfold pass_down_accounts at h
    cases h
    simp
  | a :: rest, delivered, out => by
    intro h
    unfold pass_down_accounts at h
    dsimp only at h
    split at h
    · cases h
    · rename_i heq
      rw [pass_down_accounts_some f rest _ out h, List.filter_cons, heq]
      simp [holds]
    · rename_i heq
      rw [pass_down_accounts_some f rest _ out h, List.filter_cons, heq]
      simp [holds]

mutual
theorem add_value_credited (d : Nat → Int) (id : Nat) (amount : Int) :
    ∀ a : account_t, (a.credited d).add_value id amount =
      a.credited (fun i => d i + if i = id then amount else 0)
  | .mk i v cs => by
    unfold account_t.credited account_t.add_value
    rw [add_value_each_credited d id amount cs]
    by_cases h : i = id
    · rw [if_pos h, if_pos h, Int.add_assoc]
    · rw [if_neg h, if_neg h, Int.add_zero]
theorem add_value_each_credited (d : Nat → Int) (id : Nat) (amount : Int) :
    ∀ l : List account_t,
      account_t.add_value_each id amount (account_t.credited_each d l) =
        account_t.credited_each (fun i => d i + if i = id then amount else 0) l
  | [] => rfl
  | a :: rest => by
    unfold account_t.credited_each account_t.add_value_each
    rw [add_value_credited d id amount a, add_value_each_credited d id amount rest]
end

mutual
theorem credited_zero : ∀ a : account_t, a.credited (fun _ => 0) = a
  | .mk i v cs => by
    unfold account_t.credited
    rw [credited_each_zero cs, Int.add_zero]
theorem credited_each_zero : ∀ l : List account_t, account_t.credited_each (fun _ => 0) l = l
  | [] => rfl
  | a :: rest => by
    unfold account_t.credited_each
    rw [credited_zero a, credited_each_zero rest]
end

theorem direct_amount_cons (x : xact_t) (xs : List xact_t) (i : Nat) :
    direct_amount (x :: xs) i = (if i = x.account then x.amount else 0) + direct_amount xs i := by
  unfold direct_amount
  rw [List.filter_cons]
  by_cases h : x.account = i
  · rw [if_pos (decide_eq_true h), if_pos h.symm, List.map_cons, List.sum_cons]
  · rw [if_neg (by simpa using h), if_neg (fun hh => h hh.symm), Int.zero_add]

/-- What the minimal chain leaves in the account tree when it returns: every
account credited with the amounts of the accepted postings posted to it. -/
theorem pass_down_to_accounts_credited (accept : xact_t → Except String Bool) :
    ∀ (xs : List xact_t) (d : Nat → Int) (master out : account_t),
      pass_down_to_accounts accept xs (master.credited d) = .returned out →
        out = master.credited
          (fun i => d i + direct_amount (xs.filter (fun x => holds (accept x))) i)
  | [], d, master, out => by
    intro h
    unfold pass_down_to_accounts at h
    cases h
    congr 1
    funext i
    simp [direct_amount]
  | x :: rest, d, master, out => by
    intro h
    unfold pass_down_to_accounts at h
    split at h
    · cases h
    · rename_i heq
      rw [set_account_value, add_value_credited] at h
      rw [pass_down_to_accounts_credited accept rest _ master out h]
      congr 1
      funext i
      rw [List.filter_cons, heq]
      simp only [holds, if_true]
      rw [direct_amount_cons, Int.add_assoc]
    · rename_i heq
      rw [pass_down_to_accounts_credited accept rest _ master out h]
      congr 1
      funext i
      rw [List.filter_cons, heq]
      simp [holds]

mutual
theorem calculate_sums_consistent (d : Nat → Int) :
    ∀ t : account_t, t.is_clear = true →
      ∀ a ∈ basic_accounts_iterator (t.credited d).calculate_sums,
        a.value = d a.id + account_t.total a.accounts
  | .mk i v cs => by
    intro hc a ha
    unfold account_t.is_clear at hc
    rw [Bool.and_eq_true, decide_eq_true_eq] at hc
    unfold account_t.credited account_t.calculate_sums basic_accounts_iterator at ha
    rw [List.mem_cons] at ha
    rcases ha with ha | ha
    · rw [ha, hc.1]
      simp only [account_t.value, account_t.id, account_t.accounts, Int.zero_add]
    · exact calculate_sums_each_consistent d cs hc.2 a ha
theorem calculate_sums_each_consistent (d : Nat → Int) :
    ∀ l : List account_t, account_t.is_clear_each l = true →
      ∀ a ∈ basic_accounts_iterator_each
          (account_t.calculate_sums_each (account_t.credited_each d l)),
        a.value = d a.id + account_t.total a.accounts
  | [] => by
    intro _ a ha
    unfold account_t.credited_each account_t.calculate_sums_each
      basic_accounts_iterator_each at ha
    cases ha
  | t :: rest => by
    intro hc a ha
    unfold account_t.is_clear_each at hc
    rw [Bool.and_eq_true] at hc
    unfold account_t.credited_each account_t.calculate_sums_each
      basic_accounts_iterator_each at ha
    rw [List.mem_append] at ha
    rcases ha with ha | ha
    · exact calculate_sums_consistent d t hc.1 a ha
    · exact calculate_sums_each_consistent d rest hc.2 a ha
end

theorem mem_basic_accounts_iterator_self (a : account_t) :
    a ∈ basic_accounts_iterator a := by
  cases a
  unfold basic_accounts_iterator
  exact List.mem_cons_self _ _

/-! ## Transient state after a report -/

/-- C15: from a pristine state, when `xacts_report`, `entry_report`,
`commodities_report` or `accounts_report` returns, the state it leaves is the
pristine state it started from: every transient field the run wrote on a
posting (for `entry_report`, on a posting of the given entry) is cleared again
and, after `accounts_report`, every accumulated value is zero again. -/
theorem reports_restore_pristine_state (report : report_t) (p : pipeline)
    (item_predicate : String → xact_t → Except String Bool)
    (account_predicate : String → account_t → Except String Bool)
    (sorted_accounts_iterator : String → Bool → account_t → List account_t)
    (entry : entry_t) (hp : report.session.pristine) (he : entry.pristine) :
    (∀ s, report.xacts_report p = .returned s → s = report.session) ∧
    (∀ e, report.entry_report p entry = .returned e → e = entry) ∧
    (∀ s, report.commodities_report p = .returned s → s = report.session) ∧
    (∀ run, report.accounts_report item_predicate account_predicate
        sorted_accounts_iterator = .returned run → run.session = report.session) := by
  refine ⟨?_, ?_, ?_, ?_⟩
  · intro s h
    unfold report_t.xacts_report at h
    dsimp only at h
    split at h
    · cases h
    · cases h
      exact clean_written_session _ _ hp
  · intro e h
    unfold report_t.entry_report at h
    dsimp only at h
    split at h
    · cases h
    · cases h
      exact clean_written_entry _ _ he
  · intro s h
    unfold report_t.commodities_report at h
    dsimp only at h
    split at h
    · cases h
    · cases h
      exact clean_written_session _ _ hp
  · intro run h
    exact accounts_report_returned_session report item_predicate account_predicate
      sorted_accounts_iterator hp h

/-- The report of scenario A with a pipeline that writes transient fields, a
case of C15: the reports return and leave the pristine state. -/
theorem reports_restore_pristine_state_witness :
    scenario_report.session.pristine ∧
    (scenario_report.xacts_report marking_pipeline).is_returned = true ∧
    (scenario_report.xacts_report marking_pipeline).state.journal = scenario_journal ∧
    (scenario_report.accounts_report accept_all only_food sorted_as_basic).is_returned
      = true :=
  have h := reports_restore_pristine_state scenario_report marking_pipeline accept_all
    only_food sorted_as_basic { xacts := [] } (by decide) (by decide)
  ⟨by decide, by decide,
    congrArg session_t.journal (h.1 (scenario_report.xacts_report marking_pipeline).state
      rfl), by decide⟩

/-- C16, as stated, fails: a run that raises an evaluation error leaves behind
what it wrote. On the pristine session of scenario A, `xacts_report` with a
pipeline that writes transient fields and then raises leaves a journal that
differs from the one before the call, and `accounts_report` whose selection
predicate raises on the third posting leaves the accumulated value 15 on the
account 2. -/
theorem aborted_report_keeps_transient_state :
    scenario_report.session.pristine ∧
    (scenario_report.xacts_report raising_pipeline).is_returned = false ∧
    (scenario_report.xacts_report raising_pipeline).state.journal ≠
      scenario_report.session.journal ∧
    scenario_report_limit.session.pristine ∧
    (scenario_report_limit.accounts_report raise_on_salary only_food
      sorted_as_basic).is_returned = false ∧
    account_values (basic_accounts_iterator
      (scenario_report_limit.accounts_report raise_on_salary only_food
        sorted_as_basic).state.session.master) =
      [(0, 0), (1, 0), (2, 15), (3, 0), (4, 0)] := by decide

/-- C16, amended: when the run inside a report raises an evaluation error,
the report raises that error and the resets that follow the run are not
reached, so the state left behind is the state the run left at the error: for
`xacts_report`, `entry_report` and `commodities_report` the postings with the
transient fields the run wrote; for `accounts_report`, the session as the
aggregator left it, also when the aggregator itself raised. -/
theorem aborted_report_skips_reset (report : report_t) (p : pipeline)
    (item_predicate : String → xact_t → Except String Bool)
    (account_predicate : String → account_t → Except String Bool)
    (sorted_accounts_iterator : String → Bool → account_t → List account_t)
    (entry : entry_t) (e : String) :
    ((p .journal_xacts_iterator report.cells report.session.journal.entries).error
        = some e →
      report.xacts_report p = .raised e { report.session with
        journal := { entries := (write_entries
          (p .journal_xacts_iterator report.cells report.session.journal.entries).writes
          0 report.session.journal.entries) } }) ∧
    ((p .entry_xacts_iterator report.cells [entry]).error = some e →
      report.entry_report p entry = .raised e
        { xacts := (write_xacts ((p .entry_xacts_iterator report.cells [entry]).writes 0)
          0 entry.xacts) }) ∧
    ((p .xacts_commodities_iterator report.cells report.session.journal.entries).error
        = some e →
      report.commodities_report p = .raised e { report.session with
        journal := { entries := (write_entries
          (p .xacts_commodities_iterator report.cells
            report.session.journal.entries).writes
          0 report.session.journal.entries) } }) ∧
    (∀ s, report.sum_all_accounts item_predicate = .raised e s →
      report.accounts_report item_predicate account_predicate sorted_accounts_iterator =
        .raised e { session := s, delivered := [] }) ∧
    (∀ run, report.accounts_report item_predicate account_predicate
        sorted_accounts_iterator = .raised e run →
      run.session = (report.sum_all_accounts item_predicate).state) := by
  refine ⟨?_, ?_, ?_, ?_, ?_⟩
  · intro h
    unfold report_t.xacts_report
    dsimp only
    rw [h]
  · intro h
    unfold report_t.entry_report
    dsimp only
    rw [h]
  · intro h
    unfold report_t.commodities_report
    dsimp only
    rw [h]
  · intro s h
    unfold report_t.accounts_report
    rw [h]
  · intro run h
    unfold report_t.accounts_report at h
    split at h
    · rename_i e1 session heq
      cases h
      rw [heq]
      rfl
    · rename_i session heq
      dsimp only at h
      split at h
      · cases h
        rw [heq]
        rfl
      · cases h

/-- The report of scenario A with the pipeline that writes and then raises, a
case of the amended C16. -/
theorem aborted_report_skips_reset_witness :
    (scenario_report.xacts_report raising_pipeline).is_returned = false ∧
    ((scenario_report.xacts_report raising_pipeline).state.journal.entries.map
      (fun entry => entry.xacts.map xact_t.xdata)) =
      [[some { account := some 2, amount := some 10 }, none, none]] :=
  have h := (aborted_report_skips_reset scenario_report raising_pipeline accept_all
    only_food sorted_as_basic { xacts := [] } "evaluation error").1 rfl
  ⟨by rw [h]; rfl, by rw [h]; decide⟩

/-! ## The aggregator -/

/-- C13, as stated, fails: `sum_all_accounts` does not reset the accumulated
values before it adds to them. On the journal of scenario A a first run from
the pristine state gives 15 on the account 2 and 15 on the account 1; a second
run in direct succession gives 30 and 45. -/
theorem sum_all_accounts_is_additive :
    scenario_report.session.pristine ∧
    (scenario_report.sum_all_accounts accept_all).is_returned = true ∧
    account_values (basic_accounts_iterator
      (scenario_report.sum_all_accounts accept_all).state.master) =
      [(0, 0), (1, 15), (2, 15), (3, -15), (4, -15)] ∧
    account_values (basic_accounts_iterator
      (report_t.sum_all_accounts
        { scenario_report with
          session := (scenario_report.sum_all_accounts accept_all).state }
        accept_all).state.master) =
      [(0, 0), (1, 45), (2, 30), (3, -45), (4, -30)] := by decide

/-- C13, amended: from a pristine state, when `sum_all_accounts` has returned
and the session has been reset by `clean_xacts` and `clean_accounts` (as
`accounts_report` does at its end), a second run with the same options
returns the same session as the first, every account with the same
accumulated value; and a second run of `accounts_report` returns what the
first returned. -/
theorem sum_all_accounts_repeats_after_reset (report : report_t)
    (item_predicate : String → xact_t → Except String Bool)
    (account_predicate : String → account_t → Except String Bool)
    (sorted_accounts_iterator : String → Bool → account_t → List account_t)
    (hp : report.session.pristine) :
    (∀ s, report.sum_all_accounts item_predicate = .returned s →
      report_t.sum_all_accounts
        { report with session := clean_accounts (clean_xacts s) } item_predicate =
        .returned s) ∧
    (∀ run, report.accounts_report item_predicate account_predicate
        sorted_accounts_iterator = .returned run →
      report_t.accounts_report { report with session := run.session } item_predicate
        account_predicate sorted_accounts_iterator = .returned run) := by
  refine ⟨?_, ?_⟩
  · intro s h
    have hc := clean_after_sum_all_accounts report item_predicate hp
    rw [h] at hc
    have hc1 : clean_accounts (clean_xacts s) = report.session := hc
    rw [hc1, report_with_own_session]
    exact h
  · intro run h
    rw [accounts_report_returned_session report item_predicate account_predicate
      sorted_accounts_iterator hp h, report_with_own_session]
    exact h

/-- The journal of scenario A, a case of the amended C13: after the reset the
second run gives the values of the first. -/
theorem sum_all_accounts_repeats_after_reset_witness :
    account_values (basic_accounts_iterator
      (report_t.sum_all_accounts
        { scenario_report with
          session := clean_accounts (clean_xacts
            (scenario_report.sum_all_accounts accept_all).state) }
        accept_all).state.master) =
      [(0, 0), (1, 15), (2, 15), (3, -15), (4, -15)] :=
  have h := (sum_all_accounts_repeats_after_reset scenario_report accept_all only_food
    sorted_as_basic (by decide)).1 (scenario_report.sum_all_accounts accept_all).state rfl
  by rw [h]; decide

/-- C14: when `sum_all_accounts` has returned from a state in which every
accumulated value is zero, the accumulated value of every account of the tree
is the sum of the amounts of the accepted postings posted directly to it plus
the accumulated values of its children. -/
theorem post_order_consistency (report : report_t)
    (item_predicate : String → xact_t → Except String Bool) (s : session_t)
    (hz : report.session.master.is_clear = true)
    (h : report.sum_all_accounts item_predicate = .returned s) :
    ∀ a ∈ basic_accounts_iterator s.master,
      a.value = direct_amount (accepted_xacts item_predicate report) a.id +
        account_t.total a.accounts := by
  unfold report_t.sum_all_accounts at h
  split at h
  · cases h
  · rename_i master heq
    cases h
    rw [← credited_zero report.session.master] at heq
    have hm := pass_down_to_accounts_credited _ _ _ _ _ heq
    intro a ha
    have hcons := calculate_sums_consistent
      (fun i => (fun _ => (0 : Int)) i + direct_amount
        ((journal_xacts report.session.journal).filter
          (fun x => holds (selection item_predicate report.cells x))) i)
      report.session.master hz a (by rw [← hm]; exact ha)
    rw [hcons]
    simp only [Int.zero_add]
    rfl

/-- Scenario A of the specification, a case of C14: Expenses:Food 15,
Income:Salary -15, the root 0 (and Expenses 15, Income -15); for the root the
value is that of its two children, no posting being posted to it. -/
theorem post_order_consistency_witness :
    account_values (basic_accounts_iterator
      (scenario_report.sum_all_accounts accept_all).state.master) =
      [(0, 0), (1, 15), (2, 15), (3, -15), (4, -15)] ∧
    (scenario_report.sum_all_accounts accept_all).state.master.value =
      direct_amount (accepted_xacts accept_all scenario_report) 0 +
        account_t.total (scenario_report.sum_all_accounts accept_all).state.master.accounts :=
  ⟨by decide,
    post_order_consistency scenario_report accept_all
      (scenario_report.sum_all_accounts accept_all).state (by decide) rfl
      (scenario_report.sum_all_accounts accept_all).state.master
      (mem_basic_accounts_iterator_self _)⟩

/-! ## Display pruning -/

/-- C17: let two reports on the same session differ in the `display_` cell
alone, unset in the first and set in the second, and let `accounts_report`
return for both. Then both runs aggregate to the same session before any
account is handed over, the first run hands over every account of the walk
over the aggregated tree, and the second hands over exactly those of them for
which the display predicate holds, in the same order and with the same
accumulated values. -/
theorem display_pruning_keeps_totals (r1 r2 : report_t)
    (item_predicate : String → xact_t → Except String Bool)
    (account_predicate : String → account_t → Except String Bool)
    (sorted_accounts_iterator : String → Bool → account_t → List account_t)
    (run1 run2 : accounts_run)
    (hs : r2.session = r1.session)
    (hc : ∀ k, k ≠ HANDLER "display_" → r2.cells k = r1.cells k)
    (h1 : (r1.cells (HANDLER "display_")).handled = false)
    (h2 : (r2.cells (HANDLER "display_")).handled = true)
    (hr1 : r1.accounts_report item_predicate account_predicate
      sorted_accounts_iterator = .returned run1)
    (hr2 : r2.accounts_report item_predicate account_predicate
      sorted_accounts_iterator = .returned run2) :
    (∃ s, r1.sum_all_accounts item_predicate = .returned s ∧
      r2.sum_all_accounts item_predicate = .returned s ∧
      run1.delivered =
        if ! (r1.cells (HANDLER "sort_")).handled then basic_accounts_iterator s.master
        else sorted_accounts_iterator (r1.cells (HANDLER "sort_")).value
          (r1.cells (HANDLER "flat")).handled s.master) ∧
    run2.delivered = run1.delivered.filter
      (fun a => holds (account_predicate (r2.cells (HANDLER "display_")).value a)) := by
  have hsum := sum_all_accounts_congr item_predicate hs (hc _ (by decide))
  have hsort := hc (HANDLER "sort_") (by decide)
  have hflat := hc (HANDLER "flat") (by decide)
  unfold report_t.accounts_report at hr1 hr2
  rw [hsum] at hr2
  split at hr1
  · cases hr1
  · rename_i s heq
    rw [heq] at hr2
    dsimp only at hr1 hr2
    rw [h1] at hr1
    rw [h2, hsort, hflat] at hr2
    simp only [Bool.false_eq_true, if_false, if_true, pass_down_accounts_none,
      List.nil_append] at hr1 hr2
    cases hr1
    split at hr2
    · cases hr2
    · rename_i delivered hpass
      cases hr2
      have hd := pass_down_accounts_some _ _ _ _ hpass
      rw [List.nil_append] at hd
      exact ⟨⟨s, heq, hsum.trans heq, rfl⟩, hd⟩

/-- The report of scenario A without and with the display predicate that
holds for Expenses:Food alone, a case of C17: the run with the predicate
hands over Expenses:Food with the value 15 it has in the run without. -/
theorem display_pruning_keeps_totals_witness :
    account_values (scenario_report.accounts_report accept_all only_food
      sorted_as_basic).state.delivered =
      [(0, 0), (1, 15), (2, 15), (3, -15), (4, -15)] ∧
    account_values (scenario_report_display.accounts_report accept_all only_food
      sorted_as_basic).state.delivered = [(2, 15)] ∧
    (scenario_report_display.accounts_report accept_all only_food
      sorted_as_basic).state.delivered =
      (scenario_report.accounts_report accept_all only_food
        sorted_as_basic).state.delivered.filter
        (fun a => holds (only_food
          (scenario_report_display.cells (HANDLER "display_")).value a)) :=
  ⟨by decide, by decide,
    (display_pruning_keeps_totals scenario_report scenario_report_display accept_all
      only_food sorted_as_basic
      (scenario_report.accounts_report accept_all only_food sorted_as_basic).state
      (scenario_report_display.accounts_report accept_all only_food sorted_as_basic).state
      rfl (fun k hk => if_neg hk) (by decide) (by decide) rfl rfl).2⟩

end ledger
